import Mathlib

/-!
Verification of the crowdfunding CLI (`src/Python/crowdfunding_app/`):
a shallow embedding of `validation.py`, `data_storage.py`, `user_auth.py`
and `project_manager.py`, followed by theorems settling the spec claims.

Python strings are modelled as `List Char`; Python floats are modelled as
exact rationals (`ℚ`), with `str`/`float()` modelled by an exact decimal
printer/parser pair (exponent, `inf` and `nan` literals are outside the
modelled fragment).  Interactive `input()` calls become explicit input
parameters, `datetime.now()` becomes an explicit `now` parameter, and the
module-level mutable registries become an explicit state record.
-/

namespace Crowdfunding

/-- Python strings, modelled as lists of characters. -/
abbrev Str := List Char

/-- Coerce a Lean string literal to the `Str` model. -/
def sl (s : String) : Str := s.data

/-- The characters removed by Python's `str.strip()` (ASCII whitespace). -/
def stripChar (c : Char) : Bool :=
  c = ' ' || c = '\t' || c = '\n' || c = '\x0d' || c = '\x0b' || c = '\x0c'

/-- Remove leading strip-characters. -/
def stripLeft : Str → Str
  | [] => []
  | c :: cs => if stripChar c then stripLeft cs else c :: cs

/-- Remove trailing strip-characters. -/
def stripRight (s : Str) : Str := (stripLeft s.reverse).reverse

/-- Python's `str.strip()`. -/
def stripStr (s : Str) : Str := stripRight (stripLeft s)

/-- Python's `str.lower()` on ASCII characters. -/
def lowerChar (c : Char) : Char :=
  if 'A' ≤ c ∧ c ≤ 'Z' then Char.ofNat (c.toNat + 32) else c

/-- Python's `str.lower()`. -/
def lowerStr (s : Str) : Str := s.map lowerChar

/-- Helper for `splitOnChar`: returns the first field and the remaining fields. -/
def splitAux (sep : Char) : Str → Str × List Str
  | [] => ([], [])
  | c :: cs =>
    let r := splitAux sep cs
    if c = sep then ([], r.1 :: r.2) else (c :: r.1, r.2)

/-- Python's `str.split(sep)` for a one-character separator. -/
def splitOnChar (sep : Char) (s : Str) : List Str :=
  (splitAux sep s).1 :: (splitAux sep s).2

theorem splitAux_append_of_not_mem {sep : Char} {l : Str} (h : sep ∉ l) (rest : Str) :
    splitAux sep (l ++ rest) = (l ++ (splitAux sep rest).1, (splitAux sep rest).2) := by
  induction l with
  | nil => simp
  | cons c cs ih =>
    have hc : c ≠ sep := fun hc => h (hc ▸ List.mem_cons_self c cs)
    have hcs : sep ∉ cs := fun hm => h (List.mem_cons_of_mem c hm)
    simp [splitAux, ih hcs, hc]

theorem splitOnChar_of_not_mem {sep : Char} {l : Str} (h : sep ∉ l) :
    splitOnChar sep l = [l] := by
  have := splitAux_append_of_not_mem h []
  simp at this
  simp [splitOnChar, this, splitAux]

theorem splitOnChar_append {sep : Char} {l : Str} (h : sep ∉ l) (rest : Str) :
    splitOnChar sep (l ++ sep :: rest) = l :: splitOnChar sep rest := by
  have := splitAux_append_of_not_mem h (sep :: rest)
  simp [splitAux] at this
  simp [splitOnChar, this]

theorem stripLeft_of_head_not_strip {s : Str}
    (h : ∀ c ∈ s, stripChar c = false) : stripLeft s = s := by
  cases s with
  | nil => rfl
  | cons c cs => simp [stripLeft, h c (List.mem_cons_self c cs)]

theorem stripStr_of_all_not_strip {s : Str}
    (h : ∀ c ∈ s, stripChar c = false) : stripStr s = s := by
  have h1 : stripLeft s = s := stripLeft_of_head_not_strip h
  have h2 : stripLeft s.reverse = s.reverse := by
    apply stripLeft_of_head_not_strip
    intro c hc
    exact h c (List.mem_reverse.mp hc)
  simp [stripStr, stripRight, h1, h2]

theorem stripLeft_append_of_all_strip {w : Str} (h : ∀ c ∈ w, stripChar c = true)
    (s : Str) : stripLeft (w ++ s) = stripLeft s := by
  induction w with
  | nil => rfl
  | cons c cs ih =>
    simp only [List.cons_append, stripLeft, h c (List.mem_cons_self c cs), if_pos]
    exact ih fun c hc => h c (List.mem_cons_of_mem _ hc)

/-! ### Decimal digit strings

Machinery for modelling Python's `str()` on floats and `float()` / `int()`
on strings.  Digit sequences are most-significant-first lists of naturals. -/

/-- The numeric value of a most-significant-first digit list. -/
def digitsVal (ds : List ℕ) : ℕ := ds.foldl (fun a d => 10 * a + d) 0

theorem digitsVal_nil : digitsVal [] = 0 := rfl

theorem digitsVal_foldl (a : ℕ) (ys : List ℕ) :
    ys.foldl (fun a d => 10 * a + d) a = a * 10 ^ ys.length + digitsVal ys := by
  induction ys generalizing a with
  | nil => simp [digitsVal]
  | cons d ds ih =>
    have h1 : digitsVal (d :: ds) = d * 10 ^ ds.length + digitsVal ds := by
      simp only [digitsVal, List.foldl_cons, Nat.mul_zero, Nat.zero_add]
      exact ih d
    simp only [List.foldl_cons, List.length_cons, ih (10 * a + d), h1]
    ring

theorem digitsVal_append (xs ys : List ℕ) :
    digitsVal (xs ++ ys) = digitsVal xs * 10 ^ ys.length + digitsVal ys := by
  simp only [digitsVal, List.foldl_append]
  exact digitsVal_foldl _ ys

/-- Base-10 digits of `n`, most significant first (fuel-based so that it
reduces in the kernel; `n` itself is always enough fuel). -/
def natDigsGo : ℕ → ℕ → List ℕ
  | 0, n => [n]
  | fuel + 1, n => if n < 10 then [n] else natDigsGo fuel (n / 10) ++ [n % 10]

def natDigs (n : ℕ) : List ℕ := natDigsGo n n

theorem natDigsGo_ne_nil (fuel n : ℕ) : natDigsGo fuel n ≠ [] := by
  cases fuel with
  | zero => simp [natDigsGo]
  | succ f => simp only [natDigsGo]; split <;> simp

theorem natDigs_ne_nil (n : ℕ) : natDigs n ≠ [] := natDigsGo_ne_nil n n

theorem digitsVal_natDigsGo (fuel n : ℕ) (h : n ≤ fuel) :
    digitsVal (natDigsGo fuel n) = n := by
  induction fuel generalizing n with
  | zero =>
    interval_cases n
    rfl
  | succ f ih =>
    simp only [natDigsGo]
    split
    · simp [digitsVal]
    · rename_i hn
      have hd : n / 10 ≤ f := by omega
      rw [digitsVal_append, ih _ hd]
      simp [digitsVal]
      omega

theorem digitsVal_natDigs (n : ℕ) : digitsVal (natDigs n) = n :=
  digitsVal_natDigsGo n n le_rfl

theorem natDigsGo_lt (fuel n : ℕ) (h : n ≤ fuel) :
    ∀ d ∈ natDigsGo fuel n, d < 10 := by
  induction fuel generalizing n with
  | zero =>
    interval_cases n
    intro d hd
    simp [natDigsGo] at hd
    omega
  | succ f ih =>
    intro d hd
    simp only [natDigsGo] at hd
    split at hd
    · rename_i hn
      simp at hd
      omega
    · rename_i hn
      rcases List.mem_append.mp hd with h1 | h1
      · exact ih (n / 10) (by omega) d h1
      · simp at h1
        omega

theorem natDigs_lt (n : ℕ) : ∀ d ∈ natDigs n, d < 10 :=
  natDigsGo_lt n n le_rfl

/-- Exactly `k` base-10 digits of `n` (mod `10 ^ k`), most significant first. -/
def natDigsPad : ℕ → ℕ → List ℕ
  | 0, _ => []
  | k + 1, n => natDigsPad k (n / 10) ++ [n % 10]

theorem natDigsPad_length (k n : ℕ) : (natDigsPad k n).length = k := by
  induction k generalizing n with
  | zero => rfl
  | succ k ih => simp [natDigsPad, ih]

theorem digitsVal_natDigsPad (k n : ℕ) (h : n < 10 ^ k) :
    digitsVal (natDigsPad k n) = n := by
  induction k generalizing n with
  | zero =>
    simp [pow_zero] at h
    simp [natDigsPad, digitsVal, h]
  | succ k ih =>
    have hd : n / 10 < 10 ^ k := by
      rw [Nat.div_lt_iff_lt_mul (by norm_num)]
      calc n < 10 ^ (k + 1) := h
      _ = 10 ^ k * 10 := by ring
    rw [natDigsPad, digitsVal_append, ih _ hd]
    simp [digitsVal]
    omega

theorem natDigsPad_lt (k n : ℕ) : ∀ d ∈ natDigsPad k n, d < 10 := by
  induction k generalizing n with
  | zero => simp [natDigsPad]
  | succ k ih =>
    intro d hd
    rw [natDigsPad] at hd
    rcases List.mem_append.mp hd with h1 | h1
    · exact ih (n / 10) d h1
    · simp at h1
      omega

/-- The ASCII character of a decimal digit. -/
def digitChar (d : ℕ) : Char := Char.ofNat (48 + d)

/-- The digit value of an ASCII character. -/
def charDigitVal (c : Char) : ℕ := c.toNat - 48

/-- Whether a character is an ASCII decimal digit. -/
def isDigitCh (c : Char) : Bool := 48 ≤ c.toNat && c.toNat ≤ 57

theorem digitChar_spec (d : ℕ) (h : d < 10) :
    isDigitCh (digitChar d) = true ∧ charDigitVal (digitChar d) = d ∧
    stripChar (digitChar d) = false ∧ digitChar d ≠ '.' ∧ digitChar d ≠ '-' ∧
    digitChar d ≠ '+' ∧ digitChar d ≠ '|' ∧ digitChar d ≠ '\n' := by
  interval_cases d <;> exact ⟨by decide, by decide, by decide, by decide, by decide,
    by decide, by decide, by decide⟩

theorem map_charDigitVal_digitChar {l : List ℕ} (h : ∀ d ∈ l, d < 10) :
    (l.map digitChar).map charDigitVal = l := by
  rw [List.map_map]
  have : l.map (charDigitVal ∘ digitChar) = l.map id :=
    List.map_congr_left fun d hd => (digitChar_spec d (h d hd)).2.1
  simpa using this

/-- Numeric value of a string of digit characters. -/
def digitsOf (s : Str) : ℕ := digitsVal (s.map charDigitVal)

/-! ### Python `float()` and `str()` on floats

Python float values are modelled as exact rationals.  `float()` is modelled
on plain decimal literals (optional sign, digits, optional fractional part);
`str()` prints the exact decimal expansion with at least one fractional
digit, as Python does for floats in the non-exponent range. -/

/-- The unsigned part of Python's `float()` parser: digits with an optional
single decimal point, at least one digit in total. -/
def pyFloatCore (t : Str) : Option ℚ :=
  match splitOnChar '.' t with
  | [d] => if d ≠ [] ∧ d.all isDigitCh then some (digitsOf d) else none
  | [d, f] =>
      if (d ≠ [] ∨ f ≠ []) ∧ d.all isDigitCh ∧ f.all isDigitCh then
        some ((digitsOf (d ++ f) : ℚ) / 10 ^ f.length)
      else none
  | _ => none

/-- Python's `float()` on decimal literals: strips whitespace, then an
optional sign followed by digits with an optional decimal point.
`None` models a `ValueError`. -/
def pyFloat? (s : Str) : Option ℚ :=
  let t := stripStr s
  if t.head? = some '+' then pyFloatCore t.tail
  else if t.head? = some '-' then (pyFloatCore t.tail).map (fun q => -q)
  else pyFloatCore t

/-- Python's `int()` on decimal literals: strips whitespace, then an optional
sign followed by digits.  `None` models a `ValueError`. -/
def pyInt? (s : Str) : Option ℤ :=
  let t := stripStr s
  if t.head? = some '+' then intCore t.tail
  else if t.head? = some '-' then (intCore t.tail).map (fun n => -n)
  else intCore t
where
  intCore (t : Str) : Option ℤ :=
    if t ≠ [] ∧ t.all isDigitCh then some (digitsOf t) else none

/-- Multiplicity of `p` in `n` (fuel-based). -/
def multOfGo : ℕ → ℕ → ℕ → ℕ
  | 0, _, _ => 0
  | fuel + 1, p, n => if 2 ≤ p ∧ 2 ≤ n ∧ p ∣ n then multOfGo fuel p (n / p) + 1 else 0

def multOf (p n : ℕ) : ℕ := multOfGo n p n

/-- Number of digits after the decimal point in the exact decimal expansion
of `q` (when it has one); Python's float `str()` prints at least one. -/
def decExp (q : ℚ) : ℕ := max (multOf 2 q.den) (multOf 5 q.den)

def fracDigits (q : ℚ) : ℕ := max 1 (decExp q)

/-- `q` scaled into an integer mantissa: `q * 10 ^ fracDigits q` (meaningful
for nonnegative `q` with a finite decimal expansion). -/
def decMant (q : ℚ) : ℕ := q.num.toNat * (10 ^ fracDigits q / q.den)

/-- `q` has a finite decimal expansion (true of every Python float value). -/
def IsDecFloat (q : ℚ) : Prop := q.den ∣ 10 ^ decExp q

instance : DecidablePred IsDecFloat := fun q => by
  unfold IsDecFloat
  infer_instance

/-- Python's `str()` on a nonnegative float value. -/
def pyFloatStrNN (q : ℚ) : Str :=
  (natDigs (decMant q / 10 ^ fracDigits q)).map digitChar ++
    '.' :: (natDigsPad (fracDigits q) (decMant q % 10 ^ fracDigits q)).map digitChar

/-- Python's `str()` on a float value. -/
def pyFloatStr (q : ℚ) : Str :=
  if q < 0 then '-' :: pyFloatStrNN (-q) else pyFloatStrNN q

theorem decMant_cast (q : ℚ) (hq : 0 ≤ q) (h : IsDecFloat q) :
    (decMant q : ℚ) = q * 10 ^ fracDigits q := by
  have hd : q.den ∣ 10 ^ fracDigits q :=
    dvd_trans h (pow_dvd_pow 10 (le_max_right 1 _))
  have hden : (q.den : ℚ) ≠ 0 := by positivity
  have hnum : (q.num.toNat : ℤ) = q.num := Int.toNat_of_nonneg (Rat.num_nonneg.mpr hq)
  have h10 : ((10 ^ fracDigits q / q.den : ℕ) : ℚ) = (10 : ℚ) ^ fracDigits q / (q.den : ℚ) := by
    rw [Nat.cast_div hd hden]
    push_cast
    ring
  calc (decMant q : ℚ)
      = (q.num.toNat : ℚ) * ((10 ^ fracDigits q / q.den : ℕ) : ℚ) := by
        simp [decMant]
    _ = (q.num : ℚ) * ((10 : ℚ) ^ fracDigits q / (q.den : ℚ)) := by
        rw [h10]
        congr 1
        exact_mod_cast congrArg (fun z : ℤ => (z : ℚ)) hnum
    _ = ((q.num : ℚ) / (q.den : ℚ)) * (10 : ℚ) ^ fracDigits q := by
        ring
    _ = q * 10 ^ fracDigits q := by
        rw [Rat.num_div_den]

theorem stripChar_eq_false_of_digit {c : Char} (h : isDigitCh c = true) :
    stripChar c = false := by
  simp only [isDigitCh, Bool.and_eq_true, decide_eq_true_eq] at h
  by_contra hc
  rw [Bool.not_eq_false] at hc
  simp only [stripChar, Bool.or_eq_true, decide_eq_true_eq] at hc
  rcases hc with ((((h1 | h1) | h1) | h1) | h1) | h1 <;> subst h1 <;>
    exact absurd h (by decide)

theorem pyFloatStrNN_chars (q : ℚ) :
    ∀ c ∈ pyFloatStrNN q, isDigitCh c = true ∨ c = '.' := by
  intro c hc
  unfold pyFloatStrNN at hc
  rcases List.mem_append.mp hc with h1 | h1
  · obtain ⟨d, hd, rfl⟩ := List.mem_map.mp h1
    exact Or.inl (digitChar_spec d (natDigs_lt _ d hd)).1
  · rcases List.mem_cons.mp h1 with rfl | h2
    · exact Or.inr rfl
    · obtain ⟨d, hd, rfl⟩ := List.mem_map.mp h2
      exact Or.inl (digitChar_spec d (natDigsPad_lt _ _ d hd)).1

theorem stripStr_pyFloatStr (q : ℚ) : stripStr (pyFloatStr q) = pyFloatStr q := by
  apply stripStr_of_all_not_strip
  intro c hc
  unfold pyFloatStr at hc
  split at hc
  · rcases List.mem_cons.mp hc with rfl | h2
    · decide
    · rcases pyFloatStrNN_chars _ c h2 with h | rfl
      · exact stripChar_eq_false_of_digit h
      · decide
  · rcases pyFloatStrNN_chars _ c hc with h | rfl
    · exact stripChar_eq_false_of_digit h
    · decide

theorem pyFloatCore_eq_of_split {t d f : Str} (hs : splitOnChar '.' t = [d, f])
    (h1 : d ≠ [] ∨ f ≠ []) (h2 : d.all isDigitCh = true) (h3 : f.all isDigitCh = true) :
    pyFloatCore t = some ((digitsOf (d ++ f) : ℚ) / 10 ^ f.length) := by
  unfold pyFloatCore
  rw [hs]
  simp [h1, h2, h3]

theorem pyFloatCore_pyFloatStrNN (q : ℚ) (hq : 0 ≤ q) (h : IsDecFloat q) :
    pyFloatCore (pyFloatStrNN q) = some q := by
  have hDdot : '.' ∉ (natDigs (decMant q / 10 ^ fracDigits q)).map digitChar := by
    intro hmem
    obtain ⟨d, hd, hcd⟩ := List.mem_map.mp hmem
    exact (digitChar_spec d (natDigs_lt _ d hd)).2.2.2.1 hcd
  have hFdot : '.' ∉ (natDigsPad (fracDigits q) (decMant q % 10 ^ fracDigits q)).map digitChar := by
    intro hmem
    obtain ⟨d, hd, hcd⟩ := List.mem_map.mp hmem
    exact (digitChar_spec d (natDigsPad_lt _ _ d hd)).2.2.2.1 hcd
  have hsplit : splitOnChar '.' (pyFloatStrNN q) =
      [(natDigs (decMant q / 10 ^ fracDigits q)).map digitChar,
       (natDigsPad (fracDigits q) (decMant q % 10 ^ fracDigits q)).map digitChar] := by
    unfold pyFloatStrNN
    rw [splitOnChar_append hDdot, splitOnChar_of_not_mem hFdot]
  have hD : (natDigs (decMant q / 10 ^ fracDigits q)).map digitChar ≠ [] := by
    simp [natDigs_ne_nil]
  have h2 : ((natDigs (decMant q / 10 ^ fracDigits q)).map digitChar).all isDigitCh = true := by
    rw [List.all_eq_true]
    intro c hc
    obtain ⟨d, hd, rfl⟩ := List.mem_map.mp hc
    exact (digitChar_spec d (natDigs_lt _ d hd)).1
  have h3 : ((natDigsPad (fracDigits q) (decMant q % 10 ^ fracDigits q)).map digitChar).all
      isDigitCh = true := by
    rw [List.all_eq_true]
    intro c hc
    obtain ⟨d, hd, rfl⟩ := List.mem_map.mp hc
    exact (digitChar_spec d (natDigsPad_lt _ _ d hd)).1
  rw [pyFloatCore_eq_of_split hsplit (Or.inl hD) h2 h3]
  have hval : digitsOf ((natDigs (decMant q / 10 ^ fracDigits q)).map digitChar ++
      (natDigsPad (fracDigits q) (decMant q % 10 ^ fracDigits q)).map digitChar) = decMant q := by
    unfold digitsOf
    rw [← List.map_append, map_charDigitVal_digitChar]
    · rw [digitsVal_append, digitsVal_natDigs, natDigsPad_length,
          digitsVal_natDigsPad _ _ (Nat.mod_lt _ (by positivity))]
      rw [mul_comm]
      exact Nat.div_add_mod (decMant q) (10 ^ fracDigits q)
    · intro d hd
      rcases List.mem_append.mp hd with h1 | h1
      · exact natDigs_lt _ d h1
      · exact natDigsPad_lt _ _ d h1
  rw [hval, List.length_map, natDigsPad_length]
  congr 1
  rw [decMant_cast q hq h]
  exact mul_div_cancel_right₀ q (by positivity)

theorem pyFloat?_eq_core {s : Str} (hstrip : stripStr s = s)
    (hhead : ∀ c, s.head? = some c → c ≠ '+' ∧ c ≠ '-') :
    pyFloat? s = pyFloatCore s := by
  unfold pyFloat?
  rw [hstrip]
  cases s with
  | nil => simp
  | cons c cs =>
    have hc := hhead c rfl
    simp [hc.1, hc.2]

/-- Round trip of the float model: parsing the printed form of any value
with a finite decimal expansion recovers the value exactly (the modelled
counterpart of CPython's `float(str(x)) == x`). -/
theorem pyFloat_pyFloatStr {q : ℚ} (h : IsDecFloat q) :
    pyFloat? (pyFloatStr q) = some q := by
  rcases lt_or_le q 0 with hneg | hpos
  · have hstr : pyFloatStr q = '-' :: pyFloatStrNN (-q) := by
      unfold pyFloatStr
      rw [if_pos hneg]
    have hstrip := stripStr_pyFloatStr q
    rw [hstr] at hstrip ⊢
    unfold pyFloat?
    rw [hstrip]
    have hcore : pyFloatCore (pyFloatStrNN (-q)) = some (-q) :=
      pyFloatCore_pyFloatStrNN (-q) (by linarith) h
    simp [hcore]
  · have hstr : pyFloatStr q = pyFloatStrNN q := by
      unfold pyFloatStr
      rw [if_neg (not_lt.mpr hpos)]
    obtain ⟨c, D', hD'⟩ := List.exists_cons_of_ne_nil (natDigs_ne_nil
      (decMant q / 10 ^ fracDigits q))
    have hshape : pyFloatStrNN q = digitChar c :: (D'.map digitChar ++
        '.' :: (natDigsPad (fracDigits q) (decMant q % 10 ^ fracDigits q)).map digitChar) := by
      unfold pyFloatStrNN
      rw [hD']
      simp
    have hcdig : c < 10 := natDigs_lt _ c (by rw [hD']; exact List.mem_cons_self c D')
    rw [hstr, pyFloat?_eq_core (hstr ▸ stripStr_pyFloatStr q)]
    · exact pyFloatCore_pyFloatStrNN q hpos h
    · intro c' hc'
      rw [hshape] at hc'
      simp only [List.head?_cons, Option.some.injEq] at hc'
      subst hc'
      exact ⟨(digitChar_spec c hcdig).2.2.2.2.2.1, (digitChar_spec c hcdig).2.2.2.2.1⟩

/-! ### Data model (`data_storage.py`)

A user record, a project record, and the module-level registries.  The
users registry is a Python dict keyed by email, modelled as an association
list with dict insertion semantics (update in place, append if new). -/

structure User where
  first_name : Str
  last_name : Str
  email : Str
  password_hash : Str
  mobile : Str
  is_active : Bool
  created_at : Str
deriving DecidableEq, Repr

structure Project where
  title : Str
  details : Str
  total_target : ℚ
  start_date : Str
  end_date : Str
  owner_email : Str
  created_at : Str
  current_amount : ℚ
deriving DecidableEq, Repr

/-- The users registry: insertion-ordered email-to-record mapping. -/
abbrev UsersData := List (Str × User)

/-- Python dict assignment `d[k] = v`: update in place, else append. -/
def dictInsert (k : Str) (v : User) : UsersData → UsersData
  | [] => [(k, v)]
  | (k', v') :: rest => if k' = k then (k', v) :: rest else (k', v') :: dictInsert k v rest

/-- Python dict lookup `d[k]` / `k in d`. -/
def dictFind (k : Str) (d : UsersData) : Option User :=
  (d.find? (fun kv => kv.1 == k)).map Prod.snd

/-- The module-level mutable state of `data_storage.py` (the two registries
and the current-user pointer). -/
structure AppState where
  users_data : UsersData
  projects_data : List Project
  current_user_email : Option Str
deriving Repr

/-- `get_current_user()`: the logged-in user's record, or `None` when the
pointer is unset (or falsy, i.e. the empty string) or dangling. -/
def getCurrentUser (st : AppState) : Option User :=
  match st.current_user_email with
  | none => none
  | some e => if e = [] then none else dictFind e st.users_data

/-- `set_current_user(email)`. -/
def setCurrentUser (e : Str) (st : AppState) : AppState :=
  { st with current_user_email := some e }

/-- `clear_current_user()`. -/
def clearCurrentUser (st : AppState) : AppState :=
  { st with current_user_email := none }

/-! ### Serialization (`save_data` / `load_data`)

Files are modelled as their character contents; `save_data` writes one
`|`-joined line per record followed by `'\n'`, and `load_data` iterates
over lines, strips each, skips blanks, splits on `'|'` and keeps only
lines with the right field count (7 for users, 8 for projects).  A float
parse error while loading projects resets the projects registry to `[]`. -/

/-- Python's `f"{b}"` on a bool. -/
def boolStr : Bool → Str
  | true => sl "True"
  | false => sl "False"

/-- Join fields with a separator character (the serialization side of the
`|`-delimited format). -/
def joinFields (sep : Char) : List Str → Str
  | [] => []
  | [f] => f
  | f :: fs => f ++ sep :: joinFields sep fs

/-- The field list of one user record, in users-file order. -/
def userFields (u : User) : List Str :=
  [u.email, u.first_name, u.last_name, u.password_hash, u.mobile,
   boolStr u.is_active, u.created_at]

/-- The serialized users-file line of one user record (without newline). -/
def userLine (u : User) : Str := joinFields '|' (userFields u)

/-- The field list of one project record, in projects-file order. -/
def projectFields (p : Project) : List Str :=
  [p.title, p.details, pyFloatStr p.total_target, p.start_date, p.end_date,
   p.owner_email, p.created_at, pyFloatStr p.current_amount]

/-- The serialized projects-file line of one project record. -/
def projectLine (p : Project) : Str := joinFields '|' (projectFields p)

/-- `save_data()`, users file contents. -/
def saveUsersFile (users : UsersData) : Str :=
  (users.map (fun kv => userLine kv.2 ++ ['\n'])).flatten

/-- `save_data()`, projects file contents. -/
def saveProjectsFile (ps : List Project) : Str :=
  (ps.map (fun p => projectLine p ++ ['\n'])).flatten

/-- Parse one stripped, nonempty users-file line; `none` when the field
count is not 7 (the line is silently dropped). -/
def parseUserLine (line : Str) : Option (Str × User) :=
  match splitOnChar '|' line with
  | [e, fn, ln, ph, mo, ia, ca] =>
      some (e, { first_name := fn, last_name := ln, email := e, password_hash := ph,
                 mobile := mo, is_active := lowerStr ia == sl "true", created_at := ca })
  | _ => none

/-- Process one stripped, nonempty users-file line against the registry
being built. -/
def userStep (acc : UsersData) (l : Str) : UsersData :=
  match parseUserLine l with
  | some (k, u) => dictInsert k u acc
  | none => acc

/-- `load_data()`, users registry from file contents. -/
def loadUsersFile (file : Str) : UsersData :=
  (splitOnChar '\n' file).foldl
    (fun acc line =>
      let l := stripStr line
      if l = [] then acc else userStep acc l)
    []

/-- Parse one stripped, nonempty projects-file line; `.ok none` when the
field count is not 8 (the line is dropped), `.error ()` when a float field
does not parse (Python's `float()` raises). -/
def parseProjectLine (line : Str) : Except Unit (Option Project) :=
  match splitOnChar '|' line with
  | [ti, de, tt, sd, ed, oe, ca, cu] =>
      match pyFloat? tt, pyFloat? cu with
      | some v1, some v2 =>
          .ok (some
            { title := ti, details := de, total_target := v1, start_date := sd,
              end_date := ed, owner_email := oe, created_at := ca, current_amount := v2 })
      | _, _ => .error ()
  | _ => .ok none

/-- The projects-file loading loop. -/
def loadProjectsAux : List Str → List Project → Except Unit (List Project)
  | [], acc => .ok acc
  | line :: rest, acc =>
    let l := stripStr line
    if l = [] then loadProjectsAux rest acc
    else
      match parseProjectLine l with
      | .ok (some p) => loadProjectsAux rest (acc ++ [p])
      | .ok none => loadProjectsAux rest acc
      | .error e => .error e

/-- `load_data()`, projects registry from file contents: any exception
during the loop resets the registry to empty. -/
def loadProjectsFile (file : Str) : List Project :=
  match loadProjectsAux (splitOnChar '\n' file) [] with
  | .ok l => l
  | .error _ => []

/-! ### Round-trip lemmas for the persistence layer -/

/-- A field that survives the delimited format: no `'|'`, no `'\n'` and no
`'\x0d'` (carriage return, translated on text-mode reads). -/
def cleanField (s : Str) : Bool := s.all (fun c => !(c = '|' || c = '\n' || c = '\x0d'))

/-- All string fields of a user record are clean. -/
def userClean (u : User) : Bool :=
  cleanField u.email && cleanField u.first_name && cleanField u.last_name &&
    cleanField u.password_hash && cleanField u.mobile && cleanField u.created_at

/-- All string fields of a project record are clean. -/
def projClean (p : Project) : Bool :=
  cleanField p.title && cleanField p.details && cleanField p.start_date &&
    cleanField p.end_date && cleanField p.owner_email && cleanField p.created_at

theorem not_mem_of_cleanField {s : Str} (h : cleanField s = true) :
    '|' ∉ s ∧ '\n' ∉ s ∧ '\x0d' ∉ s := by
  rw [cleanField, List.all_eq_true] at h
  refine ⟨fun hm => ?_, fun hm => ?_, fun hm => ?_⟩ <;> simpa using h _ hm

theorem splitOnChar_joinFields {sep : Char} {fs : List Str} (hne : fs ≠ [])
    (h : ∀ f ∈ fs, sep ∉ f) : splitOnChar sep (joinFields sep fs) = fs := by
  induction fs with
  | nil => exact absurd rfl hne
  | cons f fs ih =>
    cases fs with
    | nil => exact splitOnChar_of_not_mem (h f (by simp))
    | cons g gs =>
      rw [show joinFields sep (f :: g :: gs) = f ++ sep :: joinFields sep (g :: gs) from rfl]
      rw [splitOnChar_append (h f (by simp))]
      rw [ih (by simp) (fun x hx => h x (List.mem_cons_of_mem f hx))]

theorem joinFields_cons_cons_ne_nil {sep : Char} {f g : Str} {gs : List Str} :
    joinFields sep (f :: g :: gs) ≠ [] := by
  show f ++ sep :: joinFields sep (g :: gs) ≠ []
  simp

theorem mem_joinFields {sep c : Char} {fs : List Str} (h : c ∈ joinFields sep fs) :
    c = sep ∨ ∃ f ∈ fs, c ∈ f := by
  induction fs with
  | nil => simp [joinFields] at h
  | cons f fs ih =>
    cases fs with
    | nil =>
      simp only [joinFields] at h
      exact Or.inr ⟨f, by simp, h⟩
    | cons g gs =>
      rw [show joinFields sep (f :: g :: gs) = f ++ sep :: joinFields sep (g :: gs) from rfl] at h
      rcases List.mem_append.mp h with h1 | h1
      · exact Or.inr ⟨f, by simp, h1⟩
      · rcases List.mem_cons.mp h1 with rfl | h2
        · exact Or.inl rfl
        · rcases ih h2 with h3 | ⟨x, hx, hc⟩
          · exact Or.inl h3
          · exact Or.inr ⟨x, List.mem_cons_of_mem f hx, hc⟩

theorem digit_ne_special {c : Char} (h : isDigitCh c = true) :
    c ≠ '|' ∧ c ≠ '\n' ∧ c ≠ '\x0d' := by
  simp only [isDigitCh, Bool.and_eq_true, decide_eq_true_eq] at h
  refine ⟨?_, ?_, ?_⟩ <;> rintro rfl <;> exact absurd h (by decide)

theorem pyFloatStr_chars (q : ℚ) :
    ∀ c ∈ pyFloatStr q, isDigitCh c = true ∨ c = '.' ∨ c = '-' := by
  intro c hc
  unfold pyFloatStr at hc
  split at hc
  · rcases List.mem_cons.mp hc with rfl | h2
    · exact Or.inr (Or.inr rfl)
    · rcases pyFloatStrNN_chars _ c h2 with h | h
      · exact Or.inl h
      · exact Or.inr (Or.inl h)
  · rcases pyFloatStrNN_chars _ c hc with h | h
    · exact Or.inl h
    · exact Or.inr (Or.inl h)

theorem cleanField_pyFloatStr (q : ℚ) : cleanField (pyFloatStr q) = true := by
  rw [cleanField, List.all_eq_true]
  intro c hc
  rcases pyFloatStr_chars q c hc with h | rfl | rfl
  · obtain ⟨h1, h2, h3⟩ := digit_ne_special h
    simp [h1, h2, h3]
  · decide
  · decide

theorem cleanField_boolStr (b : Bool) : cleanField (boolStr b) = true := by
  cases b <;> decide

theorem newline_not_mem_userLine {u : User} (h : userClean u = true) :
    '\n' ∉ userLine u := by
  simp only [userClean, Bool.and_eq_true] at h
  obtain ⟨⟨⟨⟨⟨he, hf⟩, hl⟩, hp⟩, hm⟩, hc⟩ := h
  intro hmem
  rcases mem_joinFields hmem with h1 | ⟨f, hf', hcf⟩
  · exact absurd h1 (by decide)
  · simp only [userFields, List.mem_cons, List.not_mem_nil, or_false] at hf'
    rcases hf' with rfl | rfl | rfl | rfl | rfl | rfl | rfl
    · exact (not_mem_of_cleanField he).2.1 hcf
    · exact (not_mem_of_cleanField hf).2.1 hcf
    · exact (not_mem_of_cleanField hl).2.1 hcf
    · exact (not_mem_of_cleanField hp).2.1 hcf
    · exact (not_mem_of_cleanField hm).2.1 hcf
    · exact (not_mem_of_cleanField (cleanField_boolStr u.is_active)).2.1 hcf
    · exact (not_mem_of_cleanField hc).2.1 hcf

theorem pipe_not_mem_userFields {u : User} (h : userClean u = true) :
    ∀ f ∈ userFields u, '|' ∉ f := by
  simp only [userClean, Bool.and_eq_true] at h
  obtain ⟨⟨⟨⟨⟨he, hf⟩, hl⟩, hp⟩, hm⟩, hc⟩ := h
  intro f hf'
  simp only [userFields, List.mem_cons, List.not_mem_nil, or_false] at hf'
  rcases hf' with rfl | rfl | rfl | rfl | rfl | rfl | rfl
  · exact (not_mem_of_cleanField he).1
  · exact (not_mem_of_cleanField hf).1
  · exact (not_mem_of_cleanField hl).1
  · exact (not_mem_of_cleanField hp).1
  · exact (not_mem_of_cleanField hm).1
  · exact (not_mem_of_cleanField (cleanField_boolStr u.is_active)).1
  · exact (not_mem_of_cleanField hc).1

theorem splitOnChar_userLine {u : User} (h : userClean u = true) :
    splitOnChar '|' (userLine u) = userFields u :=
  splitOnChar_joinFields (by simp [userFields]) (pipe_not_mem_userFields h)

theorem lowerStr_boolStr_beq (b : Bool) : (lowerStr (boolStr b) == sl "true") = b := by
  cases b <;> decide

theorem parseUserLine_userLine {u : User} (h : userClean u = true) :
    parseUserLine (userLine u) = some (u.email, u) := by
  unfold parseUserLine
  rw [splitOnChar_userLine h]
  simp only [userFields]
  rw [lowerStr_boolStr_beq]

theorem newline_not_mem_projectLine {p : Project} (h : projClean p = true) :
    '\n' ∉ projectLine p := by
  simp only [projClean, Bool.and_eq_true] at h
  obtain ⟨⟨⟨⟨⟨ht, hd⟩, hs⟩, he⟩, ho⟩, hc⟩ := h
  intro hmem
  rcases mem_joinFields hmem with h1 | ⟨f, hf', hcf⟩
  · exact absurd h1 (by decide)
  · simp only [projectFields, List.mem_cons, List.not_mem_nil, or_false] at hf'
    rcases hf' with rfl | rfl | rfl | rfl | rfl | rfl | rfl | rfl
    · exact (not_mem_of_cleanField ht).2.1 hcf
    · exact (not_mem_of_cleanField hd).2.1 hcf
    · exact (not_mem_of_cleanField (cleanField_pyFloatStr p.total_target)).2.1 hcf
    · exact (not_mem_of_cleanField hs).2.1 hcf
    · exact (not_mem_of_cleanField he).2.1 hcf
    · exact (not_mem_of_cleanField ho).2.1 hcf
    · exact (not_mem_of_cleanField hc).2.1 hcf
    · exact (not_mem_of_cleanField (cleanField_pyFloatStr p.current_amount)).2.1 hcf

theorem pipe_not_mem_projectFields {p : Project} (h : projClean p = true) :
    ∀ f ∈ projectFields p, '|' ∉ f := by
  simp only [projClean, Bool.and_eq_true] at h
  obtain ⟨⟨⟨⟨⟨ht, hd⟩, hs⟩, he⟩, ho⟩, hc⟩ := h
  intro f hf'
  simp only [projectFields, List.mem_cons, List.not_mem_nil, or_false] at hf'
  rcases hf' with rfl | rfl | rfl | rfl | rfl | rfl | rfl | rfl
  · exact (not_mem_of_cleanField ht).1
  · exact (not_mem_of_cleanField hd).1
  · exact (not_mem_of_cleanField (cleanField_pyFloatStr p.total_target)).1
  · exact (not_mem_of_cleanField hs).1
  · exact (not_mem_of_cleanField he).1
  · exact (not_mem_of_cleanField ho).1
  · exact (not_mem_of_cleanField hc).1
  · exact (not_mem_of_cleanField (cleanField_pyFloatStr p.current_amount)).1

theorem splitOnChar_projectLine {p : Project} (h : projClean p = true) :
    splitOnChar '|' (projectLine p) = projectFields p :=
  splitOnChar_joinFields (by simp [projectFields]) (pipe_not_mem_projectFields h)

theorem parseProjectLine_projectLine {p : Project} (hclean : projClean p = true)
    (h1 : IsDecFloat p.total_target) (h2 : IsDecFloat p.current_amount) :
    parseProjectLine (projectLine p) = .ok (some p) := by
  unfold parseProjectLine
  rw [splitOnChar_projectLine hclean]
  simp only [projectFields]
  rw [pyFloat_pyFloatStr h1, pyFloat_pyFloatStr h2]

theorem userLine_ne_nil (u : User) : userLine u ≠ [] :=
  joinFields_cons_cons_ne_nil

theorem projectLine_ne_nil (p : Project) : projectLine p ≠ [] :=
  joinFields_cons_cons_ne_nil

theorem splitOnChar_flatten_lines (lines : List Str) (h : ∀ l ∈ lines, '\n' ∉ l) :
    splitOnChar '\n' ((lines.map (fun l => l ++ ['\n'])).flatten) = lines ++ [[]] := by
  induction lines with
  | nil => rfl
  | cons l ls ih =>
    have hl : '\n' ∉ l := h l (List.mem_cons_self l ls)
    have hrest := ih fun x hx => h x (List.mem_cons_of_mem l hx)
    simp only [List.map_cons, List.flatten_cons, List.append_assoc, List.singleton_append]
    rw [splitOnChar_append hl, hrest]
    rfl

theorem dictInsert_append {k : Str} {v : User} {acc : UsersData}
    (h : ∀ kv ∈ acc, kv.1 ≠ k) : dictInsert k v acc = acc ++ [(k, v)] := by
  induction acc with
  | nil => rfl
  | cons kv acc ih =>
    rw [show dictInsert k v (kv :: acc) =
      if kv.1 = k then (kv.1, v) :: acc else kv :: dictInsert k v acc from rfl]
    rw [if_neg (h kv (List.mem_cons_self kv acc))]
    rw [ih fun kv' h' => h kv' (List.mem_cons_of_mem kv h')]
    rfl

theorem foldl_userStep_lines (pairs : UsersData) : ∀ acc : UsersData,
    (∀ kv ∈ pairs, userClean kv.2 = true) →
    (∀ kv ∈ pairs, kv.1 = kv.2.email) →
    (∀ kv ∈ pairs, ∀ kv' ∈ acc, kv'.1 ≠ kv.1) →
    (pairs.map Prod.fst).Nodup →
    (pairs.map (fun kv => userLine kv.2)).foldl userStep acc = acc ++ pairs := by
  induction pairs with
  | nil =>
    intro acc _ _ _ _
    simp
  | cons kv pairs ih =>
    intro acc hclean hkey hdisj hnd
    have hkv : kv.1 = kv.2.email := hkey kv (List.mem_cons_self kv pairs)
    have h1 : userStep acc (userLine kv.2) = acc ++ [kv] := by
      unfold userStep
      rw [parseUserLine_userLine (hclean kv (List.mem_cons_self kv pairs))]
      show dictInsert kv.2.email kv.2 acc = acc ++ [kv]
      rw [dictInsert_append (fun kv' h' =>
        hkv ▸ hdisj kv (List.mem_cons_self kv pairs) kv' h')]
      rw [← hkv]
    rw [List.map_cons, List.nodup_cons] at hnd
    obtain ⟨hnotin, hnd2⟩ := hnd
    have hdisj2 : ∀ x ∈ pairs, ∀ kv' ∈ acc ++ [kv], kv'.1 ≠ x.1 := by
      intro x hx kv' hkv'
      rcases List.mem_append.mp hkv' with h' | h'
      · exact hdisj x (List.mem_cons_of_mem kv hx) kv' h'
      · have hkv' : kv' = kv := by simpa using h'
        subst hkv'
        intro heq
        apply hnotin
        rw [heq]
        exact List.mem_map_of_mem Prod.fst hx
    simp only [List.map_cons, List.foldl_cons, h1]
    rw [ih (acc ++ [kv]) (fun x hx => hclean x (List.mem_cons_of_mem kv hx))
        (fun x hx => hkey x (List.mem_cons_of_mem kv hx)) hdisj2 hnd2]
    simp

theorem foldl_stripped_nonempty (ls : List Str) : ∀ acc : UsersData,
    (∀ l ∈ ls, stripStr l = l ∧ l ≠ []) →
    ls.foldl (fun acc line => let l := stripStr line; if l = [] then acc else userStep acc l) acc
      = ls.foldl userStep acc := by
  induction ls with
  | nil =>
    intro acc _
    rfl
  | cons l ls ih =>
    intro acc h
    obtain ⟨hs, hne⟩ := h l (List.mem_cons_self l ls)
    simp only [List.foldl_cons, hs, if_neg hne]
    exact ih _ fun x hx => h x (List.mem_cons_of_mem l hx)

theorem loadProjectsAux_lines (ps : List Project) : ∀ acc : List Project,
    (∀ p ∈ ps, projClean p = true) →
    (∀ p ∈ ps, IsDecFloat p.total_target ∧ IsDecFloat p.current_amount) →
    (∀ p ∈ ps, stripStr (projectLine p) = projectLine p) →
    loadProjectsAux (ps.map projectLine ++ [[]]) acc = .ok (acc ++ ps) := by
  induction ps with
  | nil =>
    intro acc _ _ _
    have hnil : stripStr ([] : Str) = [] := rfl
    simp [loadProjectsAux, hnil]
  | cons p ps ih =>
    intro acc h1 h2 h3
    have hp := List.mem_cons_self p ps
    simp only [List.map_cons, List.cons_append, List.append_eq, loadProjectsAux, h3 p hp,
      if_neg (projectLine_ne_nil p),
      parseProjectLine_projectLine (h1 p hp) (h2 p hp).1 (h2 p hp).2]
    rw [ih (acc ++ [p]) (fun x hx => h1 x (List.mem_cons_of_mem p hx))
        (fun x hx => h2 x (List.mem_cons_of_mem p hx))
        (fun x hx => h3 x (List.mem_cons_of_mem p hx))]
    simp

/-- C1 counterexample: the claim fails as stated.  A user record whose
email field begins with a space contains neither `'|'` nor a newline, yet
`load_data` calls `line.strip()` on each line, so the leading space is lost
and the loaded record differs from the saved one. -/
theorem claim_C1_counterexample :
    (userClean
        { first_name := sl "Ann", last_name := sl "Bee", email := sl " a@b.co",
          password_hash := sl "h1", mobile := sl "01012345678", is_active := false,
          created_at := sl "2025-01-01" } = true) ∧
      loadUsersFile (saveUsersFile
        [(sl " a@b.co",
          { first_name := sl "Ann", last_name := sl "Bee", email := sl " a@b.co",
            password_hash := sl "h1", mobile := sl "01012345678", is_active := false,
            created_at := sl "2025-01-01" })]) ≠
        [(sl " a@b.co",
          { first_name := sl "Ann", last_name := sl "Bee", email := sl " a@b.co",
            password_hash := sl "h1", mobile := sl "01012345678", is_active := false,
            created_at := sl "2025-01-01" })] := by
  constructor
  · decide
  · decide

/-- C1 (amended): for every users registry (keyed by the records' emails,
with distinct emails) and projects registry in which no field value
contains `'|'`, `'\n'` or `'\x0d'`, and each record's serialized line is
invariant under `strip()` (no leading whitespace on the first field and no
trailing whitespace on the last), and the float fields have finite decimal
expansions (true of every Python float), `save_data` followed by a fresh
`load_data` reproduces both registries field for field — including
`is_active` (serialized as `True`/`False`, parsed back by lowercase
comparison to `true`) and the float fields (serialized via `str`, parsed
back via `float`). -/
theorem claim_C1_round_trip (users : UsersData) (projects : List Project)
    (hkey : ∀ kv ∈ users, kv.1 = kv.2.email)
    (hnd : (users.map Prod.fst).Nodup)
    (huclean : ∀ kv ∈ users, userClean kv.2 = true)
    (hustrip : ∀ kv ∈ users, stripStr (userLine kv.2) = userLine kv.2)
    (hpclean : ∀ p ∈ projects, projClean p = true)
    (hpdec : ∀ p ∈ projects, IsDecFloat p.total_target ∧ IsDecFloat p.current_amount)
    (hpstrip : ∀ p ∈ projects, stripStr (projectLine p) = projectLine p) :
    loadUsersFile (saveUsersFile users) = users ∧
    loadProjectsFile (saveProjectsFile projects) = projects := by
  constructor
  · unfold loadUsersFile saveUsersFile
    have hmap : users.map (fun kv => userLine kv.2 ++ ['\n'])
        = (users.map (fun kv => userLine kv.2)).map (fun l => l ++ ['\n']) := by
      rw [List.map_map]
      rfl
    rw [hmap, splitOnChar_flatten_lines _ (fun l hl => by
      obtain ⟨kv, hkv, rfl⟩ := List.mem_map.mp hl
      exact newline_not_mem_userLine (huclean kv hkv))]
    have hlast : ∀ a : UsersData,
        ((users.map (fun kv : Str × User => userLine kv.2)) ++ [[]]).foldl
          (fun acc line => let l := stripStr line; if l = [] then acc else userStep acc l) a
        = (users.map (fun kv : Str × User => userLine kv.2)).foldl
          (fun acc line => let l := stripStr line; if l = [] then acc else userStep acc l) a := by
      intro a
      rw [List.foldl_append]
      rfl
    rw [hlast]
    rw [foldl_stripped_nonempty _ _ (fun l hl => by
      obtain ⟨kv, hkv, rfl⟩ := List.mem_map.mp hl
      exact ⟨hustrip kv hkv, userLine_ne_nil kv.2⟩)]
    rw [foldl_userStep_lines users [] huclean hkey
      (fun x hx kv' h' => absurd h' (List.not_mem_nil kv')) hnd]
    simp
  · unfold loadProjectsFile saveProjectsFile
    have hmap : projects.map (fun p => projectLine p ++ ['\n'])
        = (projects.map projectLine).map (fun l => l ++ ['\n']) := by
      rw [List.map_map]
      rfl
    rw [hmap, splitOnChar_flatten_lines _ (fun l hl => by
      obtain ⟨p, hp, rfl⟩ := List.mem_map.mp hl
      exact newline_not_mem_projectLine (hpclean p hp))]
    rw [loadProjectsAux_lines projects [] hpclean hpdec hpstrip]
    simp

/-- C1 witness: a concrete population satisfying the amended hypotheses
round-trips exactly. -/
theorem claim_C1_round_trip_witness :
    loadUsersFile (saveUsersFile
        [(sl "a@b.co",
          { first_name := sl "Ann", last_name := sl "Bee", email := sl "a@b.co",
            password_hash := sl "abc123", mobile := sl "01012345678", is_active := true,
            created_at := sl "2025-01-01T00:00:00" })]) =
      [(sl "a@b.co",
        { first_name := sl "Ann", last_name := sl "Bee", email := sl "a@b.co",
          password_hash := sl "abc123", mobile := sl "01012345678", is_active := true,
          created_at := sl "2025-01-01T00:00:00" })] ∧
    loadProjectsFile (saveProjectsFile
        [{ title := sl "Well", details := sl "Dig a well", total_target := 100,
           start_date := sl "2025-06-01", end_date := sl "2025-07-01",
           owner_email := sl "a@b.co", created_at := sl "2025-01-01T00:00:00",
           current_amount := 0 }]) =
      [{ title := sl "Well", details := sl "Dig a well", total_target := 100,
         start_date := sl "2025-06-01", end_date := sl "2025-07-01",
         owner_email := sl "a@b.co", created_at := sl "2025-01-01T00:00:00",
         current_amount := 0 }] :=
  claim_C1_round_trip _ _
    (by decide) (by decide) (by decide) (by decide) (by decide) (by decide) (by decide)

/-! ### Load characterization (claim C6) -/

/-- The stripped, nonempty lines a load actually processes. -/
def cleanedLines (ls : List Str) : List Str := (ls.map stripStr).filter (fun l => l ≠ [])

instance {ε α : Type} [DecidableEq ε] [DecidableEq α] : DecidableEq (Except ε α) :=
  fun a b =>
  match a, b with
  | .ok x, .ok y => decidable_of_iff (x = y) (by simp)
  | .ok _, .error _ => isFalse (fun h => by cases h)
  | .error _, .ok _ => isFalse (fun h => by cases h)
  | .error x, .error y => decidable_of_iff (x = y) (by simp)

/-- The parse outcome of one cleaned projects-file line, with raised
errors mapped to `none`. -/
def projParsed (l : Str) : Option Project :=
  match parseProjectLine l with
  | .ok p? => p?
  | .error _ => none

theorem loadProjectsAux_cons (line : Str) (ls : List Str) (acc : List Project) :
    loadProjectsAux (line :: ls) acc =
      if stripStr line = [] then loadProjectsAux ls acc
      else
        match parseProjectLine (stripStr line) with
        | .ok (some p) => loadProjectsAux ls (acc ++ [p])
        | .ok none => loadProjectsAux ls acc
        | .error e => .error e := rfl

theorem loadProjectsAux_ok (ls : List Str) : ∀ acc : List Project,
    (∀ l ∈ cleanedLines ls, parseProjectLine l ≠ .error ()) →
    loadProjectsAux ls acc = .ok (acc ++ (cleanedLines ls).filterMap projParsed) := by
  induction ls with
  | nil =>
    intro acc _
    simp [loadProjectsAux, cleanedLines]
  | cons line ls ih =>
    intro acc h
    rw [loadProjectsAux_cons]
    by_cases hl : stripStr line = []
    · have hcl : cleanedLines (line :: ls) = cleanedLines ls := by
        simp [cleanedLines, hl]
      rw [if_pos hl, hcl]
      exact ih acc fun x hx => h x (by rw [hcl]; exact hx)
    · rw [if_neg hl]
      have hcl : cleanedLines (line :: ls) = stripStr line :: cleanedLines ls := by
        simp [cleanedLines, hl]
      have hmem : stripStr line ∈ cleanedLines (line :: ls) := by
        rw [hcl]
        exact List.mem_cons_self _ _
      have htail : ∀ l ∈ cleanedLines ls, parseProjectLine l ≠ .error () := by
        intro x hx
        exact h x (by rw [hcl]; exact List.mem_cons_of_mem _ hx)
      cases hp : parseProjectLine (stripStr line) with
      | error e =>
        cases e
        exact absurd hp (h _ hmem)
      | ok p? =>
        cases p? with
        | some p =>
          show loadProjectsAux ls (acc ++ [p]) = _
          rw [ih (acc ++ [p]) htail, hcl]
          simp [List.filterMap_cons, projParsed, hp]
        | none =>
          show loadProjectsAux ls acc = _
          rw [ih acc htail, hcl]
          simp [List.filterMap_cons, projParsed, hp]

theorem loadProjectsAux_error (ls : List Str) : ∀ acc : List Project,
    (∃ l ∈ cleanedLines ls, parseProjectLine l = .error ()) →
    loadProjectsAux ls acc = .error () := by
  induction ls with
  | nil =>
    intro acc h
    simp [cleanedLines] at h
  | cons line ls ih =>
    intro acc h
    rw [loadProjectsAux_cons]
    by_cases hl : stripStr line = []
    · have hcl : cleanedLines (line :: ls) = cleanedLines ls := by
        simp [cleanedLines, hl]
      rw [hcl] at h
      rw [if_pos hl]
      exact ih acc h
    · rw [if_neg hl]
      have hcl : cleanedLines (line :: ls) = stripStr line :: cleanedLines ls := by
        simp [cleanedLines, hl]
      rw [hcl] at h
      cases hp : parseProjectLine (stripStr line) with
      | error e =>
        cases e
        rfl
      | ok p? =>
        have h' : ∃ l ∈ cleanedLines ls, parseProjectLine l = .error () := by
          rcases h with ⟨l, hml, hle⟩
          rcases List.mem_cons.mp hml with rfl | hm
          · rw [hp] at hle
            cases hle
          · exact ⟨l, hm, hle⟩
        cases p? with
        | some p => exact ih _ h'
        | none => exact ih _ h'

theorem foldl_userBody_clean (ls : List Str) : ∀ acc : UsersData,
    ls.foldl (fun acc line => let l := stripStr line; if l = [] then acc else userStep acc l) acc
      = (cleanedLines ls).foldl userStep acc := by
  induction ls with
  | nil =>
    intro acc
    rfl
  | cons line ls ih =>
    intro acc
    simp only [List.foldl_cons]
    by_cases hl : stripStr line = []
    · rw [show (let l := stripStr line;
          if l = [] then acc else userStep acc l) = acc from by simp [hl]]
      rw [ih acc]
      congr 1
      simp [cleanedLines, hl]
    · rw [show (let l := stripStr line;
          if l = [] then acc else userStep acc l) = userStep acc (stripStr line) from by
        simp [hl]]
      rw [ih (userStep acc (stripStr line))]
      rw [show cleanedLines (line :: ls) = stripStr line :: cleanedLines ls from by
        simp [cleanedLines, hl]]
      rfl

/-- C6: `load_data` splits each stripped, nonempty line on `'|'` into a
fixed field count (7 for users, 8 for projects); a line with the wrong
count parses to nothing and is silently dropped while the remaining
well-formed lines are still loaded (the load equals the fold/filterMap of
the per-line parses over the cleaned lines); and if any line raises while
parsing (a non-numeric float field in an 8-field line), the projects
registry is reset to empty. -/
theorem claim_C6_load (file : Str) :
    ((∀ l ∈ cleanedLines (splitOnChar '\n' file), parseProjectLine l ≠ .error ()) →
      loadProjectsFile file = (cleanedLines (splitOnChar '\n' file)).filterMap projParsed) ∧
    ((∃ l ∈ cleanedLines (splitOnChar '\n' file), parseProjectLine l = .error ()) →
      loadProjectsFile file = []) ∧
    loadUsersFile file = (cleanedLines (splitOnChar '\n' file)).foldl userStep [] ∧
    (∀ l : Str, (parseUserLine l).isSome ↔ (splitOnChar '|' l).length = 7) ∧
    (∀ l : Str, parseProjectLine l = .ok none ↔ (splitOnChar '|' l).length ≠ 8) := by
  refine ⟨?_, ?_, ?_, ?_, ?_⟩
  · intro h
    unfold loadProjectsFile
    rw [loadProjectsAux_ok _ [] h]
    rfl
  · intro h
    unfold loadProjectsFile
    rw [loadProjectsAux_error _ [] h]
  · unfold loadUsersFile
    exact foldl_userBody_clean _ []
  · intro l
    unfold parseUserLine
    match hs : splitOnChar '|' l with
    | [a, b, c, d, e, f, g] => simp
    | [] => simp
    | [a] => simp
    | [a, b] => simp
    | [a, b, c] => simp
    | [a, b, c, d] => simp
    | [a, b, c, d, e] => simp
    | [a, b, c, d, e, f] => simp
    | a :: b :: c :: d :: e :: f :: g :: h :: rest => simp
  · intro l
    unfold parseProjectLine
    match hs : splitOnChar '|' l with
    | [a, b, c, d, e, f, g, h] =>
      simp only [List.length_cons, List.length_nil]
      constructor
      · intro hcontra
        cases hpc : pyFloat? c with
        | none => simp [hpc] at hcontra ⊢
        | some v1 =>
          cases hph : pyFloat? h with
          | none => simp [hpc, hph] at hcontra ⊢
          | some v2 => simp [hpc, hph] at hcontra
      · intro hlen
        omega
    | [] => simp
    | [a] => simp
    | [a, b] => simp
    | [a, b, c] => simp
    | [a, b, c, d] => simp
    | [a, b, c, d, e] => simp
    | [a, b, c, d, e, f] => simp
    | [a, b, c, d, e, f, g] => simp
    | a :: b :: c :: d :: e :: f :: g :: h :: i :: rest => simp

/-- C6 witness: a projects file whose single 8-field line has a
non-numeric total target loads as the empty registry, while a file with a
wrong-field-count line still loads and equals the per-line characterization. -/
theorem claim_C6_load_witness :
    loadProjectsFile (sl "T|D|abc|s|e|o|c|0\n") = [] ∧
    loadProjectsFile (sl "T|D|100|s|e|o|c|0\nBAD|LINE\n") =
      (cleanedLines (splitOnChar '\n' (sl "T|D|100|s|e|o|c|0\nBAD|LINE\n"))).filterMap
        projParsed :=
  ⟨(claim_C6_load _).2.1 ⟨sl "T|D|abc|s|e|o|c|0", by decide, by decide⟩,
   (claim_C6_load _).1 (by decide)⟩

/-! ### Validation (`validation.py`) -/

/-- Gregorian leap year, as `datetime` implements it. -/
def isLeapYear (y : ℕ) : Bool := y % 4 == 0 && (y % 100 != 0 || y % 400 == 0)

/-- Days in a month, as the `datetime` constructor validates. -/
def daysInMonth (y m : ℕ) : ℕ :=
  if m = 2 then (if isLeapYear y then 29 else 28)
  else if m = 4 ∨ m = 6 ∨ m = 9 ∨ m = 11 then 30
  else 31

/-- `datetime.strptime(s, "%Y-%m-%d")`: exactly four year digits, a dash,
one or two month digits, a dash, one or two day digits, nothing left over,
and a valid calendar date (year at least 1, month 1–12, day within the
month).  Returns the `(year, month, day)` triple. -/
def parseDate (s : Str) : Option (ℕ × ℕ × ℕ) :=
  let yrun := s.takeWhile isDigitCh
  if yrun.length = 4 then
    match s.dropWhile isDigitCh with
    | '-' :: r1 =>
      let mrun := r1.takeWhile isDigitCh
      if 1 ≤ mrun.length ∧ mrun.length ≤ 2 then
        match r1.dropWhile isDigitCh with
        | '-' :: r2 =>
          let drun := r2.takeWhile isDigitCh
          if 1 ≤ drun.length ∧ drun.length ≤ 2 ∧ r2.dropWhile isDigitCh = [] then
            let y := digitsOf yrun
            let m := digitsOf mrun
            let d := digitsOf drun
            if 1 ≤ y ∧ 1 ≤ m ∧ m ≤ 12 ∧ 1 ≤ d ∧ d ≤ daysInMonth y m then
              some (y, m, d)
            else none
          else none
        | _ => none
      else none
    | _ => none
  else none

/-- `validate_date`: parseable as `%Y-%m-%d`. -/
def validateDate (s : Str) : Bool := (parseDate s).isSome

/-- Strict comparison of `(year, month, day)` triples — `datetime` (and
`date`) comparison is field-lexicographic. -/
def dateLt (a b : ℕ × ℕ × ℕ) : Bool :=
  a.1 < b.1 || (a.1 == b.1 && (a.2.1 < b.2.1 || (a.2.1 == b.2.1 && a.2.2 < b.2.2)))

def dateLe (a b : ℕ × ℕ × ℕ) : Bool := dateLt a b || a == b

/-- `validate_date_range(start, end)`, with `datetime.now()` passed in
explicitly as a date plus a seconds-of-day count: the source compares the
parsed midnight datetimes against the full current timestamp, so the start
date is "in the past" as soon as its date is before today or today has a
nonzero time of day. -/
def validateDateRange (nowD : ℕ × ℕ × ℕ) (nowT : ℕ) (start_date end_date : Str) :
    Bool × Str :=
  match parseDate start_date, parseDate end_date with
  | some sd, some ed =>
    if !dateLt sd ed then (false, sl "End date must be after start date!")
    else if dateLt sd nowD || (sd == nowD && decide (0 < nowT)) then
      (false, sl "Start date cannot be in the past!")
    else (true, [])
  | _, _ => (false, sl "Invalid date format!")

theorem validateDateRange_eq {nowD : ℕ × ℕ × ℕ} {nowT : ℕ} {s e : Str}
    {sd ed : ℕ × ℕ × ℕ} (hs : parseDate s = some sd) (he : parseDate e = some ed) :
    validateDateRange nowD nowT s e =
      if !dateLt sd ed then (false, sl "End date must be after start date!")
      else if dateLt sd nowD || (sd == nowD && decide (0 < nowT)) then
        (false, sl "Start date cannot be in the past!")
      else (true, []) := by
  unfold validateDateRange
  rw [hs, he]

/-- C3: for strings parseable as `YYYY-MM-DD`, `validate_date_range`
succeeds exactly when the start is not before the captured current moment
and the start is strictly before the end; it fails with a non-empty
message when `end <= start` or the start is in the past; and unparseable
input yields `(False, "Invalid date format!")` rather than raising. -/
theorem claim_C3_validate_date_range (nowD : ℕ × ℕ × ℕ) (nowT : ℕ) (s e : Str) :
    (∀ sd ed, parseDate s = some sd → parseDate e = some ed →
      ((dateLt sd ed = true ∧ dateLt sd nowD = false ∧ (sd = nowD → nowT = 0)) →
        validateDateRange nowD nowT s e = (true, [])) ∧
      (dateLt sd ed = false →
        (validateDateRange nowD nowT s e).1 = false ∧
        (validateDateRange nowD nowT s e).2 ≠ []) ∧
      ((dateLt sd nowD = true ∨ (sd = nowD ∧ 0 < nowT)) →
        (validateDateRange nowD nowT s e).1 = false ∧
        (validateDateRange nowD nowT s e).2 ≠ [])) ∧
    ((parseDate s = none ∨ parseDate e = none) →
      validateDateRange nowD nowT s e = (false, sl "Invalid date format!")) := by
  constructor
  · intro sd ed hs he
    refine ⟨?_, ?_, ?_⟩
    · rintro ⟨h1, h2, h3⟩
      rw [validateDateRange_eq hs he]
      rw [if_neg (show ¬(!dateLt sd ed) = true by rw [h1]; decide)]
      have h4 : (sd == nowD && decide (0 < nowT)) = false := by
        by_cases hEq : sd = nowD
        · have h5 := h3 hEq
          subst h5
          simp
        · simp [hEq]
      rw [if_neg (show ¬(dateLt sd nowD || (sd == nowD && decide (0 < nowT))) = true by
        rw [h2, h4]; decide)]
    · intro h1
      rw [validateDateRange_eq hs he]
      rw [if_pos (show (!dateLt sd ed) = true by rw [h1]; rfl)]
      exact ⟨rfl, by decide⟩
    · intro h1
      rw [validateDateRange_eq hs he]
      by_cases h2 : dateLt sd ed = true
      · rw [if_neg (show ¬(!dateLt sd ed) = true by rw [h2]; decide)]
        rw [if_pos (show (dateLt sd nowD || (sd == nowD && decide (0 < nowT))) = true by
          rcases h1 with h1 | ⟨rfl, h1⟩
          · rw [h1]
            simp
          · simp [h1])]
        exact ⟨rfl, by decide⟩
      · rw [if_pos (show (!dateLt sd ed) = true by rw [Bool.eq_false_iff.mpr h2]; rfl)]
        exact ⟨rfl, by decide⟩
  · intro h
    unfold validateDateRange
    rcases h with h | h
    · rw [h]
    · rw [h]
      rcases hps : parseDate s with _ | sd <;> rfl

/-- C3 witness: a concrete future, well-ordered date range validates, at a
current moment of midnight 2025-01-01. -/
theorem claim_C3_witness :
    validateDateRange (2025, 1, 1) 0 (sl "2025-06-01") (sl "2025-07-01") = (true, []) :=
  ((claim_C3_validate_date_range (2025, 1, 1) 0 (sl "2025-06-01") (sl "2025-07-01")).1
    (2025, 6, 1) (2025, 7, 1) (by decide) (by decide)).1 ⟨by decide, by decide, by decide⟩

/-- The characters the phone validator removes before matching
(the regex `[\s\-\(\)]`, substituted away everywhere). -/
def phoneStripChar (c : Char) : Bool := stripChar c || c = '-' || c = '(' || c = ')'

/-- `re.sub(r"[\s\-\(\)]", "", phone)`. -/
def stripPhoneChars (s : Str) : Str := s.filter (fun c => !phoneStripChar c)

/-- The alternatives of the optional country-code group `(\+20|0020|20)?`,
including the absent case. -/
def ccVariants : List Str := [sl "+20", sl "0020", sl "20", []]

/-- The remainder of `t` after a literal country code, when it is a prefix. -/
def dropCC (cc t : Str) : Option Str :=
  if t.take cc.length = cc then some (t.drop cc.length) else none

/-- The mobile tail `01[0125][0-9]{8}$`. -/
def mobileCore (t : Str) : Bool :=
  match t with
  | a :: b :: c :: rest =>
    a == '0' && b == '1' && (c == '0' || c == '1' || c == '2' || c == '5') &&
      rest.length == 8 && rest.all isDigitCh
  | _ => false

/-- The landline tail `02[0-9]{8}$`. -/
def landlineCore (t : Str) : Bool :=
  match t with
  | a :: b :: rest => a == '0' && b == '2' && rest.length == 8 && rest.all isDigitCh
  | _ => false

/-- `validate_egyptian_phone`: strip spaces/hyphens/parentheses, then match
either anchored pattern (the alternation over the optional country code is
an existential because both patterns are anchored on both sides). -/
def validateEgyptianPhone (phone : Str) : Bool :=
  let t := stripPhoneChars phone
  ccVariants.any (fun cc =>
    match dropCC cc t with
    | some r => mobileCore r
    | none => false) ||
  ccVariants.any (fun cc =>
    match dropCC cc t with
    | some r => landlineCore r
    | none => false)

/-- The acceptance shape as the spec words it: after stripping, an optional
country-code variant followed by a mobile prefix 010/011/012/015 and
8 digits, or an optional country-code variant followed by the landline
prefix 02 and 8 digits. -/
def phoneSpecShape (s : Str) : Prop :=
  ∃ cc rest, cc ∈ ccVariants ∧ stripPhoneChars s = cc ++ rest ∧
    ((∃ c ds, rest = '0' :: '1' :: c :: ds ∧ (c = '0' ∨ c = '1' ∨ c = '2' ∨ c = '5') ∧
        ds.length = 8 ∧ (∀ x ∈ ds, isDigitCh x = true)) ∨
      (∃ ds, rest = '0' :: '2' :: ds ∧ ds.length = 8 ∧ (∀ x ∈ ds, isDigitCh x = true)))

theorem dropCC_eq_some {cc t r : Str} : dropCC cc t = some r ↔ t = cc ++ r := by
  unfold dropCC
  constructor
  · intro h
    split at h
    · rename_i hTake
      cases h
      conv_lhs => rw [← List.take_append_drop cc.length t]
      rw [hTake]
    · cases h
  · rintro rfl
    rw [if_pos (List.take_left cc r)]
    rw [List.drop_left]

theorem mobileCore_iff (r : Str) : mobileCore r = true ↔
    ∃ c ds, r = '0' :: '1' :: c :: ds ∧ (c = '0' ∨ c = '1' ∨ c = '2' ∨ c = '5') ∧
      ds.length = 8 ∧ (∀ x ∈ ds, isDigitCh x = true) := by
  match r with
  | [] => simp [mobileCore]
  | [a] => simp [mobileCore]
  | [a, b] => simp [mobileCore]
  | a :: b :: c :: rest =>
    simp only [mobileCore, Bool.and_eq_true, Bool.or_eq_true, beq_iff_eq, List.all_eq_true]
    constructor
    · rintro ⟨⟨⟨⟨rfl, rfl⟩, hc⟩, hlen⟩, hdig⟩
      exact ⟨c, rest, rfl, by tauto, by exact_mod_cast hlen, fun x hx => hdig x hx⟩
    · rintro ⟨c', ds', heq, hc, hlen, hdig⟩
      obtain ⟨rfl, rfl, rfl, rfl⟩ : a = '0' ∧ b = '1' ∧ c = c' ∧ rest = ds' := by
        injection heq with h1 h2
        injection h2 with h2 h3
        injection h3 with h3 h4
        exact ⟨h1, h2, h3, h4⟩
      exact ⟨⟨⟨⟨rfl, rfl⟩, by tauto⟩, by exact_mod_cast hlen⟩, fun x hx => hdig x hx⟩

theorem landlineCore_iff (r : Str) : landlineCore r = true ↔
    ∃ ds, r = '0' :: '2' :: ds ∧ ds.length = 8 ∧ (∀ x ∈ ds, isDigitCh x = true) := by
  match r with
  | [] => simp [landlineCore]
  | [a] => simp [landlineCore]
  | a :: b :: rest =>
    simp only [landlineCore, Bool.and_eq_true, beq_iff_eq, List.all_eq_true]
    constructor
    · rintro ⟨⟨⟨rfl, rfl⟩, hlen⟩, hdig⟩
      exact ⟨rest, rfl, by exact_mod_cast hlen, fun x hx => hdig x hx⟩
    · rintro ⟨ds', heq, hlen, hdig⟩
      obtain ⟨rfl, rfl, rfl⟩ : a = '0' ∧ b = '2' ∧ rest = ds' := by
        injection heq with h1 h2
        injection h2 with h2 h3
        exact ⟨h1, h2, h3⟩
      exact ⟨⟨⟨rfl, rfl⟩, by exact_mod_cast hlen⟩, fun x hx => hdig x hx⟩

/-- C8: the phone validator accepts `"01012345678"` and `"0212345678"`,
rejects `"123"` and `"+1 555 0100"`, and in general accepts exactly the
strings that, after stripping spaces, hyphens and parentheses, consist of
an optional country-code variant (`+20`, `0020` or `20`) followed by a
mobile prefix 010/011/012/015 and 8 digits, or an optional country-code
variant followed by the landline prefix 02 and 8 digits. -/
theorem claim_C8_phone :
    validateEgyptianPhone (sl "01012345678") = true ∧
    validateEgyptianPhone (sl "0212345678") = true ∧
    validateEgyptianPhone (sl "123") = false ∧
    validateEgyptianPhone (sl "+1 555 0100") = false ∧
    ∀ s : Str, validateEgyptianPhone s = true ↔ phoneSpecShape s := by
  refine ⟨by decide, by decide, by decide, by decide, ?_⟩
  intro s
  unfold validateEgyptianPhone phoneSpecShape
  simp only [Bool.or_eq_true, List.any_eq_true]
  constructor
  · rintro (⟨cc, hcc, hmatch⟩ | ⟨cc, hcc, hmatch⟩)
    · cases hd : dropCC cc (stripPhoneChars s) with
      | none => rw [hd] at hmatch; cases hmatch
      | some r =>
        rw [hd] at hmatch
        obtain ⟨c, ds, hr, hc, hlen, hdig⟩ := (mobileCore_iff r).mp hmatch
        exact ⟨cc, r, hcc, dropCC_eq_some.mp hd, Or.inl ⟨c, ds, hr, hc, hlen, hdig⟩⟩
    · cases hd : dropCC cc (stripPhoneChars s) with
      | none => rw [hd] at hmatch; cases hmatch
      | some r =>
        rw [hd] at hmatch
        obtain ⟨ds, hr, hlen, hdig⟩ := (landlineCore_iff r).mp hmatch
        exact ⟨cc, r, hcc, dropCC_eq_some.mp hd, Or.inr ⟨ds, hr, hlen, hdig⟩⟩
  · rintro ⟨cc, rest, hcc, hsplit, hshape | hshape⟩
    · refine Or.inl ⟨cc, hcc, ?_⟩
      rw [dropCC_eq_some.mpr hsplit]
      exact (mobileCore_iff rest).mpr hshape
    · refine Or.inr ⟨cc, hcc, ?_⟩
      rw [dropCC_eq_some.mpr hsplit]
      exact (landlineCore_iff rest).mpr hshape

/-! ### Strip/lower interaction lemmas (for the login normalization) -/

theorem toNat_ofNat_char {n : ℕ} (h : n < 55296) : (Char.ofNat n).toNat = n := by
  unfold Char.ofNat
  rw [dif_pos (Or.inl h)]
  rfl

theorem stripChar_eq_false_of_toNat {c : Char} (h : 65 ≤ c.toNat) : stripChar c = false := by
  by_contra hc
  rw [Bool.not_eq_false] at hc
  simp only [stripChar, Bool.or_eq_true, decide_eq_true_eq] at hc
  rcases hc with ((((rfl | rfl) | rfl) | rfl) | rfl) | rfl <;> exact absurd h (by decide)

theorem stripChar_lowerChar (c : Char) : stripChar (lowerChar c) = stripChar c := by
  unfold lowerChar
  split
  · rename_i h
    have h1 : 65 ≤ c.toNat := h.1
    have h2 : c.toNat ≤ 90 := h.2
    have ht : (Char.ofNat (c.toNat + 32)).toNat = c.toNat + 32 :=
      toNat_ofNat_char (by omega)
    rw [stripChar_eq_false_of_toNat (by omega), stripChar_eq_false_of_toNat h1]
  · rfl

theorem stripLeft_lowerStr (s : Str) : stripLeft (lowerStr s) = lowerStr (stripLeft s) := by
  induction s with
  | nil => rfl
  | cons c cs ih =>
    by_cases hc : stripChar c = true
    · simp [lowerStr, stripLeft, stripChar_lowerChar, hc] at ih ⊢
      exact ih
    · rw [Bool.not_eq_true] at hc
      simp [lowerStr, stripLeft, stripChar_lowerChar, hc]

theorem stripStr_lowerStr (s : Str) : stripStr (lowerStr s) = lowerStr (stripStr s) := by
  unfold stripStr stripRight
  rw [stripLeft_lowerStr]
  rw [show (lowerStr (stripLeft s)).reverse = lowerStr (stripLeft s).reverse by
    simp [lowerStr]]
  rw [stripLeft_lowerStr]
  simp [lowerStr]

theorem stripLeft_eq_nil {s : Str} (h : ∀ c ∈ s, stripChar c = true) : stripLeft s = [] := by
  induction s with
  | nil => rfl
  | cons c cs ih =>
    simp only [stripLeft, h c (List.mem_cons_self c cs), if_pos]
    exact ih fun x hx => h x (List.mem_cons_of_mem c hx)

theorem all_strip_of_stripLeft_eq_nil {s : Str} (h : stripLeft s = []) :
    ∀ c ∈ s, stripChar c = true := by
  induction s with
  | nil => simp
  | cons c cs ih =>
    simp only [stripLeft] at h
    split at h
    · rename_i hc
      intro x hx
      rcases List.mem_cons.mp hx with rfl | hx'
      · exact hc
      · exact ih h x hx'
    · cases h

theorem stripLeft_append_of_ne_nil {s : Str} (h : stripLeft s ≠ []) (w : Str) :
    stripLeft (s ++ w) = stripLeft s ++ w := by
  induction s with
  | nil => exact absurd rfl h
  | cons c cs ih =>
    by_cases hc : stripChar c = true
    · simp only [stripLeft, hc, if_pos, List.cons_append] at h ⊢
      exact ih h
    · rw [Bool.not_eq_true] at hc
      simp [stripLeft, hc]

theorem stripRight_append_of_all_strip {w : Str} (h : ∀ c ∈ w, stripChar c = true)
    (s : Str) : stripRight (s ++ w) = stripRight s := by
  unfold stripRight
  rw [List.reverse_append]
  rw [stripLeft_append_of_all_strip (fun c hc => h c (List.mem_reverse.mp hc))]

theorem stripStr_append_left {w : Str} (h : ∀ c ∈ w, stripChar c = true) (s : Str) :
    stripStr (w ++ s) = stripStr s := by
  unfold stripStr
  rw [stripLeft_append_of_all_strip h]

theorem stripStr_append_right {w : Str} (h : ∀ c ∈ w, stripChar c = true) (s : Str) :
    stripStr (s ++ w) = stripStr s := by
  unfold stripStr
  by_cases hs : stripLeft s = []
  · rw [hs]
    rw [stripLeft_eq_nil (by
      intro c hc
      rcases List.mem_append.mp hc with hc' | hc'
      · exact all_strip_of_stripLeft_eq_nil hs c hc'
      · exact h c hc')]
  · rw [stripLeft_append_of_ne_nil hs w, stripRight_append_of_all_strip h]

/-! ### Authentication (`user_auth.py`) -/

/-- ASCII alphabetic character (Python's `isalpha` on the ASCII range). -/
def isAlphaCh (c : Char) : Bool := ('A' ≤ c && c ≤ 'Z') || ('a' ≤ c && c ≤ 'z')

/-- `validate_name`: nonempty after strip, and every character of the
stripped name alphabetic or whitespace. -/
def validateName (name : Str) : Bool :=
  !(stripStr name).isEmpty && (stripStr name).all (fun c => isAlphaCh c || stripChar c)

/-- Characters of the regex class `[a-zA-Z0-9._%+-]`. -/
def localChar (c : Char) : Bool :=
  isAlphaCh c || isDigitCh c || c = '.' || c = '_' || c = '%' || c = '+' || c = '-'

/-- Characters of the regex class `[a-zA-Z0-9.-]`. -/
def domChar (c : Char) : Bool := isAlphaCh c || isDigitCh c || c = '.' || c = '-'

/-- `validate_email`: the anchored regex
`[a-zA-Z0-9._%+-]+@[a-zA-Z0-9.-]+\.[a-zA-Z]{2,}`.  Because the top-level
domain must be purely alphabetic, the dot the regex matches is necessarily
the last dot of the domain part. -/
def validateEmail (email : Str) : Bool :=
  match splitOnChar '@' email with
  | [lp, dp] =>
    let parts := splitOnChar '.' dp
    match parts.getLast? with
    | some tld =>
      !lp.isEmpty && lp.all localChar && decide (2 ≤ parts.length) &&
        !(joinFields '.' parts.dropLast).isEmpty &&
        (joinFields '.' parts.dropLast).all domChar &&
        decide (2 ≤ tld.length) && tld.all isAlphaCh
    | none => false
  | _ => false

/-- The activation step `users_data[email]["is_active"] = True`. -/
def activateUser (u : User) : User := { u with is_active := true }

/-- `create_user`: assembles the record, hashing the password; new accounts
are inactive. -/
def createUser (hash : Str → Str) (first_name last_name email password mobile nowStr : Str) :
    User :=
  { first_name := first_name, last_name := last_name, email := email,
    password_hash := hash password, mobile := mobile, is_active := false,
    created_at := nowStr }

structure LoginResult where
  ok : Bool
  message : Str
  state : AppState

/-- `login_user()`: normalizes the entered email (strip + lower), looks it
up, then checks the active flag, then the password hash; only on success
is the current-user pointer set.  The hash function is a parameter (the
source uses unsalted SHA-256; only equality of hashes matters here). -/
def loginUser (hash : Str → Str) (st : AppState) (emailInput passwordInput : Str) :
    LoginResult :=
  match dictFind (lowerStr (stripStr emailInput)) st.users_data with
  | none => ⟨false, sl "❌ Email not found!", st⟩
  | some u =>
    if !u.is_active then ⟨false, sl "❌ Account not activated!", st⟩
    else if !(u.password_hash == hash (stripStr passwordInput)) then
      ⟨false, sl "❌ Invalid password!", st⟩
    else ⟨true, sl "✅ Welcome, " ++ u.first_name ++ ' ' :: u.last_name ++ sl "!",
      setCurrentUser (lowerStr (stripStr emailInput)) st⟩

/-- `logout_user()`. -/
def logoutUser (st : AppState) : AppState := clearCurrentUser st

structure RegisterInput where
  first_name : Str
  last_name : Str
  email : Str
  password : Str
  confirm_password : Str
  mobile : Str
  activate : Str

/-- `register_user()`: validates names, the lowercased stripped email
(rejecting duplicates), the password (length at least 6, confirmed), and
the phone; stores the new inactive user keyed by the normalized email, and
flips the active flag when the operator answers `y`. -/
def registerUser (hash : Str → Str) (nowStr : Str) (st : AppState) (inp : RegisterInput) :
    Bool × AppState :=
  if !validateName (stripStr inp.first_name) then (false, st)
  else if !validateName (stripStr inp.last_name) then (false, st)
  else if !validateEmail (lowerStr (stripStr inp.email)) then (false, st)
  else if (dictFind (lowerStr (stripStr inp.email)) st.users_data).isSome then (false, st)
  else if (stripStr inp.password).length < 6 then (false, st)
  else if !(stripStr inp.password == stripStr inp.confirm_password) then (false, st)
  else if !validateEgyptianPhone (stripStr inp.mobile) then (false, st)
  else if lowerStr inp.activate == sl "y" then
    (true, { st with users_data :=
      (dictInsert (lowerStr (stripStr inp.email))
        (activateUser (createUser hash (stripStr inp.first_name) (stripStr inp.last_name)
          (lowerStr (stripStr inp.email)) (stripStr inp.password)
          (stripStr inp.mobile) nowStr))
        (dictInsert (lowerStr (stripStr inp.email))
          (createUser hash (stripStr inp.first_name) (stripStr inp.last_name)
            (lowerStr (stripStr inp.email)) (stripStr inp.password)
            (stripStr inp.mobile) nowStr) st.users_data)) })
  else
    (true, { st with users_data :=
      (dictInsert (lowerStr (stripStr inp.email))
        (createUser hash (stripStr inp.first_name) (stripStr inp.last_name)
          (lowerStr (stripStr inp.email)) (stripStr inp.password)
          (stripStr inp.mobile) nowStr) st.users_data) })

theorem dictFind_dictInsert (k : Str) (v : User) (d : UsersData) :
    dictFind k (dictInsert k v d) = some v := by
  induction d with
  | nil => simp [dictInsert, dictFind]
  | cons kv d ih =>
    by_cases hk : kv.1 = k
    · simp [dictInsert, hk, dictFind, List.find?]
    · simp only [dictInsert, hk, if_neg, dictFind, List.find?] at ih ⊢
      rw [show (kv.1 == k) = false from by simp [hk]]
      exact ih

theorem loginUser_none {hash : Str → Str} {st : AppState} {emailI passI : Str}
    (h : dictFind (lowerStr (stripStr emailI)) st.users_data = none) :
    loginUser hash st emailI passI = ⟨false, sl "❌ Email not found!", st⟩ := by
  unfold loginUser
  rw [h]

theorem loginUser_inactive {hash : Str → Str} {st : AppState} {emailI passI : Str} {u : User}
    (h : dictFind (lowerStr (stripStr emailI)) st.users_data = some u)
    (ha : u.is_active = false) :
    loginUser hash st emailI passI = ⟨false, sl "❌ Account not activated!", st⟩ := by
  unfold loginUser
  rw [h]
  simp [ha]

theorem loginUser_badpw {hash : Str → Str} {st : AppState} {emailI passI : Str} {u : User}
    (h : dictFind (lowerStr (stripStr emailI)) st.users_data = some u)
    (ha : u.is_active = true) (hp : u.password_hash ≠ hash (stripStr passI)) :
    loginUser hash st emailI passI = ⟨false, sl "❌ Invalid password!", st⟩ := by
  unfold loginUser
  rw [h]
  simp [ha, hp]

theorem loginUser_success_eq {hash : Str → Str} {st : AppState} {emailI passI : Str} {u : User}
    (h : dictFind (lowerStr (stripStr emailI)) st.users_data = some u)
    (ha : u.is_active = true) (hp : u.password_hash = hash (stripStr passI)) :
    loginUser hash st emailI passI =
      ⟨true, sl "✅ Welcome, " ++ u.first_name ++ ' ' :: u.last_name ++ sl "!",
        setCurrentUser (lowerStr (stripStr emailI)) st⟩ := by
  unfold loginUser
  rw [h]
  simp [ha, hp]

theorem registerUser_noactivate {hash : Str → Str} {nowStr : Str} {st : AppState}
    {inp : RegisterInput} (h : (registerUser hash nowStr st inp).1 = true)
    (hact : lowerStr inp.activate ≠ sl "y") :
    registerUser hash nowStr st inp =
      (true, { st with users_data :=
        (dictInsert (lowerStr (stripStr inp.email))
          (createUser hash (stripStr inp.first_name) (stripStr inp.last_name)
            (lowerStr (stripStr inp.email)) (stripStr inp.password)
            (stripStr inp.mobile) nowStr) st.users_data) }) := by
  unfold registerUser at h ⊢
  by_cases h1 : (!validateName (stripStr inp.first_name)) = true
  · rw [if_pos h1] at h
    simp at h
  rw [if_neg h1] at h ⊢
  by_cases h2 : (!validateName (stripStr inp.last_name)) = true
  · rw [if_pos h2] at h
    simp at h
  rw [if_neg h2] at h ⊢
  by_cases h3 : (!validateEmail (lowerStr (stripStr inp.email))) = true
  · rw [if_pos h3] at h
    simp at h
  rw [if_neg h3] at h ⊢
  by_cases h4 : (dictFind (lowerStr (stripStr inp.email)) st.users_data).isSome = true
  · rw [if_pos h4] at h
    simp at h
  rw [if_neg h4] at h ⊢
  by_cases h5 : (stripStr inp.password).length < 6
  · rw [if_pos h5] at h
    simp at h
  rw [if_neg h5] at h ⊢
  by_cases h6 : (!(stripStr inp.password == stripStr inp.confirm_password)) = true
  · rw [if_pos h6] at h
    simp at h
  rw [if_neg h6] at h ⊢
  by_cases h7 : (!validateEgyptianPhone (stripStr inp.mobile)) = true
  · rw [if_pos h7] at h
    simp at h
  rw [if_neg h7] at h ⊢
  rw [if_neg (show ¬(lowerStr inp.activate == sl "y") = true from by simpa using hact)]

/-- C5: login fails — returning `False` with a non-empty user-facing
message and leaving the state untouched — exactly when the normalized
email is absent from the registry, or the account is inactive, or the
stored hash differs from the hash of the entered password; on success the
current-user pointer is set to the normalized email.  And because
`register_user` stores new users with `is_active = False`, registering and
immediately logging in with the same credentials fails unless the
activation prompt was answered `y`. -/
theorem claim_C5_login (hash : Str → Str) (st : AppState) (emailI passI nowStr : Str)
    (inp : RegisterInput) :
    ((loginUser hash st emailI passI).ok = false ↔
      (dictFind (lowerStr (stripStr emailI)) st.users_data = none ∨
        ∃ u, dictFind (lowerStr (stripStr emailI)) st.users_data = some u ∧
          (u.is_active = false ∨ u.password_hash ≠ hash (stripStr passI)))) ∧
    ((loginUser hash st emailI passI).ok = false →
      (loginUser hash st emailI passI).state = st ∧
      (loginUser hash st emailI passI).message ≠ []) ∧
    ((loginUser hash st emailI passI).ok = true →
      (loginUser hash st emailI passI).state =
        setCurrentUser (lowerStr (stripStr emailI)) st) ∧
    ((registerUser hash nowStr st inp).1 = true → lowerStr inp.activate ≠ sl "y" →
      (loginUser hash (registerUser hash nowStr st inp).2 inp.email inp.password).ok =
        false) := by
  refine ⟨?_, ?_, ?_, ?_⟩
  · cases hfind : dictFind (lowerStr (stripStr emailI)) st.users_data with
    | none =>
      rw [loginUser_none hfind]
      exact ⟨fun _ => Or.inl rfl, fun _ => rfl⟩
    | some u =>
      cases hA : u.is_active with
      | false =>
        rw [loginUser_inactive hfind hA]
        exact ⟨fun _ => Or.inr ⟨u, rfl, Or.inl hA⟩, fun _ => rfl⟩
      | true =>
        by_cases hpw : u.password_hash = hash (stripStr passI)
        · rw [loginUser_success_eq hfind hA hpw]
          constructor
          · intro hcontra
            exact Bool.noConfusion hcontra
          · rintro (hnone | ⟨u', hu', hcase⟩)
            · exact Option.noConfusion hnone
            · obtain rfl : u = u' := by injection hu'
              rcases hcase with hcase | hcase
              · rw [hA] at hcase
                cases hcase
              · exact absurd hpw hcase
        · rw [loginUser_badpw hfind hA hpw]
          exact ⟨fun _ => Or.inr ⟨u, rfl, Or.inr hpw⟩, fun _ => rfl⟩
  · cases hfind : dictFind (lowerStr (stripStr emailI)) st.users_data with
    | none =>
      rw [loginUser_none hfind]
      exact fun _ => ⟨rfl, show sl "❌ Email not found!" ≠ [] from by decide⟩
    | some u =>
      cases hA : u.is_active with
      | false =>
        rw [loginUser_inactive hfind hA]
        exact fun _ => ⟨rfl, show sl "❌ Account not activated!" ≠ [] from by decide⟩
      | true =>
        by_cases hpw : u.password_hash = hash (stripStr passI)
        · rw [loginUser_success_eq hfind hA hpw]
          exact fun hok => Bool.noConfusion hok
        · rw [loginUser_badpw hfind hA hpw]
          exact fun _ => ⟨rfl, show sl "❌ Invalid password!" ≠ [] from by decide⟩
  · cases hfind : dictFind (lowerStr (stripStr emailI)) st.users_data with
    | none =>
      rw [loginUser_none hfind]
      exact fun hok => Bool.noConfusion hok
    | some u =>
      cases hA : u.is_active with
      | false =>
        rw [loginUser_inactive hfind hA]
        exact fun hok => Bool.noConfusion hok
      | true =>
        by_cases hpw : u.password_hash = hash (stripStr passI)
        · rw [loginUser_success_eq hfind hA hpw]
          exact fun _ => rfl
        · rw [loginUser_badpw hfind hA hpw]
          exact fun hok => Bool.noConfusion hok
  · intro hreg hact
    rw [registerUser_noactivate hreg hact]
    have hfind : dictFind (lowerStr (stripStr inp.email))
        (dictInsert (lowerStr (stripStr inp.email))
          (createUser hash (stripStr inp.first_name) (stripStr inp.last_name)
            (lowerStr (stripStr inp.email)) (stripStr inp.password)
            (stripStr inp.mobile) nowStr) st.users_data) =
        some (createUser hash (stripStr inp.first_name) (stripStr inp.last_name)
          (lowerStr (stripStr inp.email)) (stripStr inp.password)
          (stripStr inp.mobile) nowStr) :=
      dictFind_dictInsert _ _ _
    rw [loginUser_inactive hfind rfl]

/-- C5 witness: with an empty registry, registering a fresh user without
activating and immediately logging in with the same credentials fails. -/
theorem claim_C5_login_witness :
    (registerUser (fun s => 'h' :: s) (sl "2025-01-01T00:00:00")
        ⟨[], [], none⟩
        ⟨sl "Ann", sl "Bee", sl "Ann@B.co", sl "secret12", sl "secret12",
          sl "01012345678", sl "n"⟩).1 = true ∧
    (loginUser (fun s => 'h' :: s)
        (registerUser (fun s => 'h' :: s) (sl "2025-01-01T00:00:00")
          ⟨[], [], none⟩
          ⟨sl "Ann", sl "Bee", sl "Ann@B.co", sl "secret12", sl "secret12",
            sl "01012345678", sl "n"⟩).2
        (sl "Ann@B.co") (sl "secret12")).ok = false :=
  ⟨by decide,
    (claim_C5_login (fun s => 'h' :: s) ⟨[], [], none⟩ (sl "x") (sl "y")
      (sl "2025-01-01T00:00:00")
      ⟨sl "Ann", sl "Bee", sl "Ann@B.co", sl "secret12", sl "secret12",
        sl "01012345678", sl "n"⟩).2.2.2 (by decide) (by decide)⟩

/-- C10 (implicit): login outcome is invariant under letter case and
surrounding whitespace of the entered email — for a registry whose keys
are lowercase (as registration guarantees), padding the email with
whitespace and changing letter case leaves the whole login result
unchanged, because the entered email is stripped and lowercased before
lookup. -/
theorem claim_C10_login_normalization (hash : Str → Str) (st : AppState)
    (e e' w₁ w₂ pass : Str)
    (_hkeys : ∀ kv ∈ st.users_data, lowerStr kv.1 = kv.1)
    (hw₁ : ∀ c ∈ w₁, stripChar c = true) (hw₂ : ∀ c ∈ w₂, stripChar c = true)
    (hcase : lowerStr e' = lowerStr e) :
    loginUser hash st (w₁ ++ e' ++ w₂) pass = loginUser hash st e pass := by
  have hnorm : lowerStr (stripStr (w₁ ++ e' ++ w₂)) = lowerStr (stripStr e) := by
    rw [List.append_assoc, stripStr_append_left hw₁, stripStr_append_right hw₂]
    rw [← stripStr_lowerStr, hcase, stripStr_lowerStr]
  unfold loginUser
  rw [hnorm]

/-- C10 witness: on a concrete lowercase-keyed registry, an email padded
with whitespace and in different letter case logs in identically. -/
theorem claim_C10_witness :
    loginUser (fun s => s)
        ⟨[(sl "a@b.co",
          { first_name := sl "Ann", last_name := sl "Bee", email := sl "a@b.co",
            password_hash := sl "pw", mobile := sl "01012345678", is_active := true,
            created_at := sl "t" })], [], none⟩
        (sl " " ++ sl "A@B.co" ++ sl "\t") (sl "pw") =
      loginUser (fun s => s)
        ⟨[(sl "a@b.co",
          { first_name := sl "Ann", last_name := sl "Bee", email := sl "a@b.co",
            password_hash := sl "pw", mobile := sl "01012345678", is_active := true,
            created_at := sl "t" })], [], none⟩
        (sl "a@b.CO") (sl "pw") :=
  claim_C10_login_normalization (fun s => s) _ (sl "a@b.CO") (sl "A@B.co") (sl " ") (sl "\t")
    (sl "pw") (by decide) (by decide) (by decide) (by decide)

/-! ### Project management (`project_manager.py`) -/

/-- A Python float value over the full `float()` domain: a finite value
(an exact rational) or one of the special values `float()` produces from
the `nan` and `inf`/`infinity` literals.  NaN compares false against
everything, so `nan <= 0` is `False` in Python. -/
inductive PyFloat where
  | num (q : ℚ)
  | nan
  | inf
  | ninf
deriving DecidableEq, Repr

/-- The special-literal part of `float()`: case-insensitive `nan`, `inf`
and `infinity` (the sign is handled by the caller). -/
def pyFloatSpecial? (t : Str) : Option PyFloat :=
  if lowerStr t = sl "nan" then some .nan
  else if lowerStr t = sl "inf" ∨ lowerStr t = sl "infinity" then some .inf
  else none

/-- Python's `float()` over its full value domain: strips whitespace, an
optional sign, then either a decimal literal or a special literal
(`-nan` is still NaN, `-inf` is negative infinity).  The exponent and
underscore-grouped literal forms, which denote further finite rationals,
stay outside the modelled fragment. -/
def pyFloatX? (s : Str) : Option PyFloat :=
  let t := stripStr s
  if t.head? = some '+' then
    match pyFloatSpecial? t.tail with
    | some v => some v
    | none => (pyFloatCore t.tail).map PyFloat.num
  else if t.head? = some '-' then
    match pyFloatSpecial? t.tail with
    | some .inf => some .ninf
    | some v => some v
    | none => (pyFloatCore t.tail).map (fun q => PyFloat.num (-q))
  else
    match pyFloatSpecial? t with
    | some v => some v
    | none => (pyFloatCore t).map PyFloat.num

/-- The Python comparison `x <= 0` on a float value: `nan <= 0` and
`inf <= 0` are `False`, `-inf <= 0` is `True`. -/
def pyLeZero : PyFloat → Bool
  | .num q => q ≤ 0
  | .nan => false
  | .inf => false
  | .ninf => true

/-- The Python comparison `0 < x` on a float value: `0 < nan` is `False`. -/
def pyZeroLt : PyFloat → Bool
  | .num q => 0 < q
  | .nan => false
  | .inf => true
  | .ninf => false

/-- A project record whose `total_target` ranges over the full `float()`
domain — the field `create_new_project` fills directly from
`float(input(...))`, so a `nan` input puts NaN here. -/
structure ProjectX where
  title : Str
  details : Str
  total_target : PyFloat
  start_date : Str
  end_date : Str
  owner_email : Str
  created_at : Str
  current_amount : ℚ
deriving DecidableEq, Repr

/-- The registries as `create_new_project` sees them, with the stored
projects over the full float domain. -/
structure AppStateX where
  users_data : UsersData
  projects_data : List ProjectX
  current_user_email : Option Str
deriving DecidableEq, Repr

/-- `get_current_user()` on the full-float-domain state. -/
def getCurrentUserX (st : AppStateX) : Option User :=
  match st.current_user_email with
  | none => none
  | some e => if e = [] then none else dictFind e st.users_data

def createProjectData (title details : Str) (total_target : PyFloat)
    (start_date end_date owner_email nowStr : Str) : ProjectX :=
  { title := title, details := details, total_target := total_target,
    start_date := start_date, end_date := end_date, owner_email := owner_email,
    created_at := nowStr, current_amount := 0 }

structure CreateInput where
  title : Str
  details : Str
  target : Str
  start_date : Str
  end_date : Str

/-- `create_new_project()`: requires login; validates title, details, the
target (a `float()` parse followed by the `total_target <= 0` rejection —
which NaN passes, since `nan <= 0` is `False`), both dates and the date
range; appends the new project owned by the current user. -/
def createNewProject (nowD : ℕ × ℕ × ℕ) (nowT : ℕ) (nowStr : Str) (st : AppStateX)
    (inp : CreateInput) : Bool × AppStateX :=
  match getCurrentUserX st with
  | none => (false, st)
  | some cu =>
    if stripStr inp.title = [] then (false, st)
    else if stripStr inp.details = [] then (false, st)
    else
      match pyFloatX? inp.target with
      | none => (false, st)
      | some t =>
        if pyLeZero t then (false, st)
        else if !validateDate (stripStr inp.start_date) then (false, st)
        else if !validateDate (stripStr inp.end_date) then (false, st)
        else if !(validateDateRange nowD nowT (stripStr inp.start_date)
            (stripStr inp.end_date)).1 then (false, st)
        else
          (true, { st with projects_data := st.projects_data ++
            [createProjectData (stripStr inp.title) (stripStr inp.details) t
              (stripStr inp.start_date) (stripStr inp.end_date) cu.email nowStr] })

/-- The progress expression `current_amount / total_target * 100`;
`.error` models the `ZeroDivisionError` raised when the target is zero. -/
def progressOf (p : Project) : Except Unit ℚ :=
  if p.total_target = 0 then .error () else .ok (p.current_amount / p.total_target * 100)

/-- The rendering loop of `view_all_projects` / `view_my_projects` /
`search_projects_by_date`: the progress values printed in order, stopping
at the first zero-target project with the raised error. -/
def renderProgress : List Project → Except Unit (List ℚ)
  | [] => .ok []
  | p :: rest =>
    match progressOf p with
    | .ok v => (renderProgress rest).map (fun l => v :: l)
    | .error e => .error e

/-- `get_user_projects(email)`. -/
def getUserProjects (email : Str) (ps : List Project) : List Project :=
  ps.filter (fun p => p.owner_email == email)

/-- The selection loop of `search_projects_by_date`: parses every stored
project's dates (raising on a malformed one) and keeps the projects whose
inclusive interval contains the query date. -/
def searchLoop (dd : ℕ × ℕ × ℕ) : List Project → Except Unit (List Project)
  | [] => .ok []
  | p :: rest =>
    match parseDate p.start_date, parseDate p.end_date with
    | some sd, some ed =>
      (searchLoop dd rest).map
        (fun l => if dateLe sd dd && dateLe dd ed then p :: l else l)
    | _, _ => .error ()

/-- `search_projects_by_date()`: `none` models the early return on an
invalid query date format. -/
def searchProjectsByDate (st : AppState) (dateInput : Str) :
    Option (Except Unit (List Project)) :=
  match parseDate (stripStr dateInput) with
  | none => none
  | some dd => some (searchLoop dd st.projects_data)

structure EditInput where
  choice : Str
  title : Str
  details : Str
  target : Str

/-- The mutation `edit_user_project` applies to the selected project:
blank inputs preserve the current values; a target input that parses to a
positive number replaces the target, otherwise the target is kept. -/
def applyEdit (inp : EditInput) (p : Project) : Project :=
  let p1 := if stripStr inp.title ≠ [] then { p with title := stripStr inp.title } else p
  let p2 :=
    if stripStr inp.details ≠ [] then { p1 with details := stripStr inp.details } else p1
  if stripStr inp.target ≠ [] then
    match pyFloat? (stripStr inp.target) with
    | some v => if 0 < v then { p2 with total_target := v } else p2
    | none => p2
  else p2

/-- Replace the `i`-th element satisfying `pred` (`my_projects[choice]`
aliases the corresponding element of the global list). -/
def updateNth (f : Project → Project) (pred : Project → Bool) :
    ℕ → List Project → List Project
  | _, [] => []
  | i, p :: rest =>
    if pred p then
      if i = 0 then f p :: rest
      else p :: updateNth f pred (i - 1) rest
    else p :: updateNth f pred i rest

/-- `edit_user_project()`: requires login and at least one owned project,
selects by 1-based index among the user's own projects, and applies the
interactive edit to the selected project in place. -/
def editUserProject (st : AppState) (inp : EditInput) : Bool × AppState :=
  match getCurrentUser st with
  | none => (false, st)
  | some cu =>
    if getUserProjects cu.email st.projects_data = [] then (false, st)
    else
      match pyInt? inp.choice with
      | none => (false, st)
      | some n =>
        if 0 ≤ n - 1 ∧ n - 1 < ((getUserProjects cu.email st.projects_data).length : ℤ) then
          (true, { st with projects_data :=
            (updateNth (applyEdit inp) (fun p => p.owner_email == cu.email)
              (n - 1).toNat st.projects_data) })
        else (false, st)

structure DeleteInput where
  choice : Str
  confirm : Str

/-- `delete_user_project()`: same selection discipline as edit; on a `y`
confirmation removes the first project equal to the selected one from the
global list (`list.remove` removes by equality). -/
def deleteUserProject (st : AppState) (inp : DeleteInput) : Bool × AppState :=
  match getCurrentUser st with
  | none => (false, st)
  | some cu =>
    if getUserProjects cu.email st.projects_data = [] then (false, st)
    else
      match pyInt? inp.choice with
      | none => (false, st)
      | some n =>
        if h : 0 ≤ n - 1 ∧ n - 1 < ((getUserProjects cu.email st.projects_data).length : ℤ)
        then
          if lowerStr inp.confirm == sl "y" then
            (true, { st with projects_data :=
              (st.projects_data.erase
                ((getUserProjects cu.email st.projects_data).get
                  ⟨(n - 1).toNat, by omega⟩)) })
          else (false, st)
        else (false, st)

set_option linter.unnecessarySeqFocus false in
theorem applyEdit_eq (inp : EditInput) (p : Project) :
    applyEdit inp p =
      { p with
        title := if stripStr inp.title ≠ [] then stripStr inp.title else p.title,
        details := if stripStr inp.details ≠ [] then stripStr inp.details else p.details,
        total_target :=
          if stripStr inp.target ≠ [] then
            match pyFloat? (stripStr inp.target) with
            | some v => if 0 < v then v else p.total_target
            | none => p.total_target
          else p.total_target } := by
  unfold applyEdit
  dsimp only
  split_ifs <;> (try rfl) <;>
    (cases hp : pyFloat? (stripStr inp.target) <;> (try rfl) <;>
      (rename_i v; by_cases hv : 0 < v <;> simp [hv]))

theorem applyEdit_frame (inp : EditInput) (p : Project) :
    (applyEdit inp p).start_date = p.start_date ∧
    (applyEdit inp p).end_date = p.end_date ∧
    (applyEdit inp p).owner_email = p.owner_email ∧
    (applyEdit inp p).created_at = p.created_at ∧
    (applyEdit inp p).current_amount = p.current_amount := by
  rw [applyEdit_eq]
  exact ⟨rfl, rfl, rfl, rfl, rfl⟩

theorem updateNth_filter_not (f : Project → Project) (pred : Project → Bool)
    (hpres : ∀ p, pred p = true → pred (f p) = true) :
    ∀ (i : ℕ) (l : List Project),
      (updateNth f pred i l).filter (fun p => !pred p) = l.filter (fun p => !pred p) := by
  intro i l
  induction l generalizing i with
  | nil => rfl
  | cons p rest ih =>
    by_cases hp : pred p = true
    · by_cases hi : i = 0
      · subst hi
        simp [updateNth, hp, List.filter_cons, hpres p hp]
      · simp [updateNth, hp, hi, List.filter_cons, ih]
    · rw [Bool.not_eq_true] at hp
      simp [updateNth, hp, List.filter_cons, ih]

theorem updateNth_eq_set (f : Project → Project) (pred : Project → Bool) :
    ∀ (i : ℕ) (l : List Project), i < (l.filter pred).length →
      ∃ j, ∃ hj : j < l.length, pred (l.get ⟨j, hj⟩) = true ∧
        updateNth f pred i l = l.set j (f (l.get ⟨j, hj⟩)) := by
  intro i l
  induction l generalizing i with
  | nil => simp
  | cons p rest ih =>
    intro hi
    by_cases hp : pred p = true
    · by_cases hzero : i = 0
      · subst hzero
        exact ⟨0, by simp, by simpa using hp, by simp [updateNth, hp]⟩
      · have hi' : i - 1 < (rest.filter pred).length := by
          rw [List.filter_cons, if_pos (by simpa using hp)] at hi
          simp at hi
          omega
        obtain ⟨j, hj, hpj, heq⟩ := ih (i - 1) hi'
        refine ⟨j + 1, by simpa using hj, by simpa using hpj, ?_⟩
        simp [updateNth, hp, hzero, heq]
    · rw [Bool.not_eq_true] at hp
      have hi' : i < (rest.filter pred).length := by
        rw [List.filter_cons] at hi
        simpa [hp] using hi
      obtain ⟨j, hj, hpj, heq⟩ := ih i hi'
      refine ⟨j + 1, by simpa using hj, by simpa using hpj, ?_⟩
      simp [updateNth, hp, heq]

theorem erase_filter_not {pred : Project → Bool} {x : Project} (hx : pred x = true) :
    ∀ l : List Project,
      (l.erase x).filter (fun p => !pred p) = l.filter (fun p => !pred p) := by
  intro l
  induction l with
  | nil => rfl
  | cons p rest ih =>
    by_cases hpx : p = x
    · subst hpx
      rw [List.erase_cons_head]
      rw [List.filter_cons, if_neg (by simp [hx])]
    · rw [List.erase_cons_tail (by simp [hpx])]
      rw [List.filter_cons, List.filter_cons, ih]

theorem editUserProject_cases (st : AppState) (inp : EditInput) :
    editUserProject st inp = (false, st) ∨
    ∃ cu n, getCurrentUser st = some cu ∧ pyInt? inp.choice = some n ∧
      0 ≤ n - 1 ∧ n - 1 < ((getUserProjects cu.email st.projects_data).length : ℤ) ∧
      editUserProject st inp = (true, { st with projects_data :=
        (updateNth (applyEdit inp) (fun p => p.owner_email == cu.email)
          (n - 1).toNat st.projects_data) }) := by
  unfold editUserProject
  cases hcu : getCurrentUser st with
  | none => exact Or.inl rfl
  | some cu =>
    dsimp only
    by_cases hm : getUserProjects cu.email st.projects_data = []
    · rw [if_pos hm]
      exact Or.inl rfl
    · rw [if_neg hm]
      cases hn : pyInt? inp.choice with
      | none => exact Or.inl rfl
      | some n =>
        dsimp only
        by_cases hr : 0 ≤ n - 1 ∧ n - 1 < ((getUserProjects cu.email st.projects_data).length : ℤ)
        · rw [if_pos hr]
          exact Or.inr ⟨cu, n, rfl, rfl, hr.1, hr.2, rfl⟩
        · rw [if_neg hr]
          exact Or.inl rfl

theorem deleteUserProject_cases (st : AppState) (inp : DeleteInput) :
    deleteUserProject st inp = (false, st) ∨
    ∃ cu chosen, getCurrentUser st = some cu ∧
      chosen ∈ getUserProjects cu.email st.projects_data ∧
      deleteUserProject st inp =
        (true, { st with projects_data := st.projects_data.erase chosen }) := by
  unfold deleteUserProject
  cases hcu : getCurrentUser st with
  | none => exact Or.inl rfl
  | some cu =>
    dsimp only
    by_cases hm : getUserProjects cu.email st.projects_data = []
    · rw [if_pos hm]
      exact Or.inl rfl
    · rw [if_neg hm]
      cases hn : pyInt? inp.choice with
      | none => exact Or.inl rfl
      | some n =>
        dsimp only
        by_cases hr : 0 ≤ n - 1 ∧ n - 1 < ((getUserProjects cu.email st.projects_data).length : ℤ)
        · rw [dif_pos hr]
          by_cases hc : (lowerStr inp.confirm == sl "y") = true
          · rw [if_pos hc]
            exact Or.inr ⟨cu,
              (getUserProjects cu.email st.projects_data).get ⟨(n - 1).toNat, by omega⟩,
              rfl, List.get_mem _ _ _, rfl⟩
          · rw [if_neg hc]
            exact Or.inl rfl
        · rw [dif_neg hr]
          exact Or.inl rfl

/-- C2: owner scoping of edit and delete.  The interactive listing offers
exactly the projects whose `owner_email` equals the logged-in user's
email, and for every input sequence the sublist of projects owned by
anyone else is untouched by `edit_user_project` and `delete_user_project`
(no reachable index selection can modify or remove another user's
project). -/
theorem claim_C2_owner_scoping (st : AppState) (einp : EditInput) (dinp : DeleteInput)
    (cu : User) (hcu : getCurrentUser st = some cu) :
    (∀ p ∈ getUserProjects cu.email st.projects_data, p.owner_email = cu.email) ∧
    ((editUserProject st einp).2.projects_data.filter
        (fun p => !(p.owner_email == cu.email)) =
      st.projects_data.filter (fun p => !(p.owner_email == cu.email))) ∧
    ((deleteUserProject st dinp).2.projects_data.filter
        (fun p => !(p.owner_email == cu.email)) =
      st.projects_data.filter (fun p => !(p.owner_email == cu.email))) := by
  refine ⟨?_, ?_, ?_⟩
  · intro p hp
    have := List.of_mem_filter hp
    simpa using this
  · rcases editUserProject_cases st einp with heq | ⟨cu', n, hcu', hn, h0, hlen, heq⟩
    · rw [heq]
    · rw [hcu'] at hcu
      obtain rfl : cu' = cu := by injection hcu
      rw [heq]
      exact updateNth_filter_not (applyEdit einp) _
        (fun p hp => by
          have ho := (applyEdit_frame einp p).2.2.1
          simpa [ho] using hp) _ _
  · rcases deleteUserProject_cases st dinp with heq | ⟨cu', chosen, hcu', hmem, heq⟩
    · rw [heq]
    · rw [hcu'] at hcu
      obtain rfl : cu' = cu := by injection hcu
      rw [heq]
      exact erase_filter_not (by simpa using List.of_mem_filter hmem) st.projects_data

/-- C2 witness: a registry with projects owned by two distinct users,
exercised through a concrete edit and delete as user A. -/
theorem claim_C2_owner_scoping_witness :
    (∀ p ∈ getUserProjects (sl "a@x.co")
        [{ title := sl "PA", details := sl "da", total_target := 100,
           start_date := sl "2025-06-01", end_date := sl "2025-07-01",
           owner_email := sl "a@x.co", created_at := sl "t1", current_amount := 0 },
         { title := sl "PB", details := sl "db", total_target := 200,
           start_date := sl "2025-06-01", end_date := sl "2025-07-01",
           owner_email := sl "b@x.co", created_at := sl "t2", current_amount := 0 }],
      p.owner_email = sl "a@x.co") ∧
    ((editUserProject
        ⟨[(sl "a@x.co",
          { first_name := sl "Ann", last_name := sl "Bee", email := sl "a@x.co",
            password_hash := sl "h", mobile := sl "01012345678", is_active := true,
            created_at := sl "t" })],
          [{ title := sl "PA", details := sl "da", total_target := 100,
             start_date := sl "2025-06-01", end_date := sl "2025-07-01",
             owner_email := sl "a@x.co", created_at := sl "t1", current_amount := 0 },
           { title := sl "PB", details := sl "db", total_target := 200,
             start_date := sl "2025-06-01", end_date := sl "2025-07-01",
             owner_email := sl "b@x.co", created_at := sl "t2", current_amount := 0 }],
          some (sl "a@x.co")⟩
        ⟨sl "1", sl "New title", [], []⟩).2.projects_data.filter
        (fun p => !(p.owner_email == sl "a@x.co")) =
      [{ title := sl "PA", details := sl "da", total_target := 100,
         start_date := sl "2025-06-01", end_date := sl "2025-07-01",
         owner_email := sl "a@x.co", created_at := sl "t1", current_amount := 0 },
       { title := sl "PB", details := sl "db", total_target := 200,
         start_date := sl "2025-06-01", end_date := sl "2025-07-01",
         owner_email := sl "b@x.co", created_at := sl "t2", current_amount := 0 }].filter
        (fun p => !(p.owner_email == sl "a@x.co"))) := by
  have h := claim_C2_owner_scoping
    ⟨[(sl "a@x.co",
      { first_name := sl "Ann", last_name := sl "Bee", email := sl "a@x.co",
        password_hash := sl "h", mobile := sl "01012345678", is_active := true,
        created_at := sl "t" })],
      [{ title := sl "PA", details := sl "da", total_target := 100,
         start_date := sl "2025-06-01", end_date := sl "2025-07-01",
         owner_email := sl "a@x.co", created_at := sl "t1", current_amount := 0 },
       { title := sl "PB", details := sl "db", total_target := 200,
         start_date := sl "2025-06-01", end_date := sl "2025-07-01",
         owner_email := sl "b@x.co", created_at := sl "t2", current_amount := 0 }],
      some (sl "a@x.co")⟩
    ⟨sl "1", sl "New title", [], []⟩ ⟨sl "1", sl "n"⟩
    { first_name := sl "Ann", last_name := sl "Bee", email := sl "a@x.co",
      password_hash := sl "h", mobile := sl "01012345678", is_active := true,
      created_at := sl "t" }
    (by decide)
  exact ⟨h.1, h.2.1⟩

/-- C7: frame of `edit_user_project`.  The users registry and session
pointer are untouched; every failure path leaves the whole state
unchanged; a successful edit rewrites exactly one position of the
projects list — a position owned by the current user — with `applyEdit`;
and `applyEdit` preserves the dates, owner, creation timestamp and current
amount, preserves any blank-input field, and keeps the target unchanged on
a non-parsing or non-positive input while the rest of the edit still
completes. -/
theorem claim_C7_edit_frame (st : AppState) (inp : EditInput) :
    (editUserProject st inp).2.users_data = st.users_data ∧
    (editUserProject st inp).2.current_user_email = st.current_user_email ∧
    ((editUserProject st inp).1 = false → (editUserProject st inp).2 = st) ∧
    ((editUserProject st inp).1 = true →
      ∃ cu, getCurrentUser st = some cu ∧
        ∃ j, ∃ hj : j < st.projects_data.length,
          (st.projects_data.get ⟨j, hj⟩).owner_email = cu.email ∧
          (editUserProject st inp).2.projects_data =
            st.projects_data.set j (applyEdit inp (st.projects_data.get ⟨j, hj⟩))) ∧
    (∀ p : Project,
      (applyEdit inp p).start_date = p.start_date ∧
      (applyEdit inp p).end_date = p.end_date ∧
      (applyEdit inp p).owner_email = p.owner_email ∧
      (applyEdit inp p).created_at = p.created_at ∧
      (applyEdit inp p).current_amount = p.current_amount ∧
      (stripStr inp.title = [] → (applyEdit inp p).title = p.title) ∧
      (stripStr inp.title ≠ [] → (applyEdit inp p).title = stripStr inp.title) ∧
      (stripStr inp.details = [] → (applyEdit inp p).details = p.details) ∧
      (stripStr inp.details ≠ [] → (applyEdit inp p).details = stripStr inp.details) ∧
      ((pyFloat? (stripStr inp.target) = none ∨
          ∃ v, pyFloat? (stripStr inp.target) = some v ∧ v ≤ 0) →
        (applyEdit inp p).total_target = p.total_target) ∧
      (∀ v, pyFloat? (stripStr inp.target) = some v → 0 < v → stripStr inp.target ≠ [] →
        (applyEdit inp p).total_target = v)) := by
  refine ⟨?_, ?_, ?_, ?_, ?_⟩
  · rcases editUserProject_cases st inp with heq | ⟨cu, n, hcu, hn, h0, hlen, heq⟩ <;>
      rw [heq]
  · rcases editUserProject_cases st inp with heq | ⟨cu, n, hcu, hn, h0, hlen, heq⟩ <;>
      rw [heq]
  · rcases editUserProject_cases st inp with heq | ⟨cu, n, hcu, hn, h0, hlen, heq⟩
    · rw [heq]
      exact fun _ => rfl
    · rw [heq]
      exact fun hcontra => Bool.noConfusion hcontra
  · rcases editUserProject_cases st inp with heq | ⟨cu, n, hcu, hn, h0, hlen, heq⟩
    · rw [heq]
      exact fun hcontra => Bool.noConfusion hcontra
    · intro _
      refine ⟨cu, hcu, ?_⟩
      have hi : (n - 1).toNat < (st.projects_data.filter
          (fun p => p.owner_email == cu.email)).length := by
        have : (getUserProjects cu.email st.projects_data).length =
            (st.projects_data.filter (fun p => p.owner_email == cu.email)).length := rfl
        omega
      obtain ⟨j, hj, hpj, hupd⟩ :=
        updateNth_eq_set (applyEdit inp) (fun p => p.owner_email == cu.email)
          (n - 1).toNat st.projects_data hi
      refine ⟨j, hj, by simpa using hpj, ?_⟩
      rw [heq, hupd]
  · intro p
    rw [applyEdit_eq]
    refine ⟨rfl, rfl, rfl, rfl, rfl, ?_, ?_, ?_, ?_, ?_, ?_⟩
    · intro h
      simp [h]
    · intro h
      simp [h]
    · intro h
      simp [h]
    · intro h
      simp [h]
    · intro h
      by_cases ht : stripStr inp.target = []
      · simp [ht]
      · rcases h with hnone | ⟨v, hv, hle⟩
        · simp [ht, hnone]
        · simp [ht, hv, not_lt.mpr hle]
    · intro v hv h0 hne
      simp [hne, hv, h0]

/-- C7 witness: with nobody logged in, an edit attempt fails and leaves
the state exactly unchanged. -/
theorem claim_C7_edit_frame_witness :
    (editUserProject
        ⟨[], [{ title := sl "PA", details := sl "da", total_target := 100,
                start_date := sl "2025-06-01", end_date := sl "2025-07-01",
                owner_email := sl "a@x.co", created_at := sl "t1",
                current_amount := 0 }], none⟩
        ⟨sl "1", [], [], []⟩).2 =
      ⟨[], [{ title := sl "PA", details := sl "da", total_target := 100,
              start_date := sl "2025-06-01", end_date := sl "2025-07-01",
              owner_email := sl "a@x.co", created_at := sl "t1",
              current_amount := 0 }], none⟩ :=
  (claim_C7_edit_frame
    ⟨[], [{ title := sl "PA", details := sl "da", total_target := 100,
            start_date := sl "2025-06-01", end_date := sl "2025-07-01",
            owner_email := sl "a@x.co", created_at := sl "t1",
            current_amount := 0 }], none⟩
    ⟨sl "1", [], [], []⟩).2.2.1 (by decide)

theorem createNewProject_cases (nowD : ℕ × ℕ × ℕ) (nowT : ℕ) (nowStr : Str)
    (st : AppStateX) (inp : CreateInput) :
    createNewProject nowD nowT nowStr st inp = (false, st) ∨
    ∃ cu t, getCurrentUserX st = some cu ∧ pyFloatX? inp.target = some t ∧
      pyLeZero t = false ∧
      createNewProject nowD nowT nowStr st inp = (true, { st with projects_data :=
        (st.projects_data ++ [createProjectData (stripStr inp.title) (stripStr inp.details)
          t (stripStr inp.start_date) (stripStr inp.end_date) cu.email nowStr]) }) := by
  unfold createNewProject
  cases hcu : getCurrentUserX st with
  | none => exact Or.inl rfl
  | some cu =>
    dsimp only
    by_cases h1 : stripStr inp.title = []
    · rw [if_pos h1]
      exact Or.inl rfl
    rw [if_neg h1]
    by_cases h2 : stripStr inp.details = []
    · rw [if_pos h2]
      exact Or.inl rfl
    rw [if_neg h2]
    cases ht : pyFloatX? inp.target with
    | none => exact Or.inl rfl
    | some t =>
      dsimp only
      by_cases h3 : pyLeZero t = true
      · rw [if_pos h3]
        exact Or.inl rfl
      rw [if_neg h3]
      have h3' : pyLeZero t = false := by simpa using h3
      by_cases h4 : (!validateDate (stripStr inp.start_date)) = true
      · rw [if_pos h4]
        exact Or.inl rfl
      rw [if_neg h4]
      by_cases h5 : (!validateDate (stripStr inp.end_date)) = true
      · rw [if_pos h5]
        exact Or.inl rfl
      rw [if_neg h5]
      by_cases h6 : (!(validateDateRange nowD nowT (stripStr inp.start_date)
          (stripStr inp.end_date)).1) = true
      · rw [if_pos h6]
        exact Or.inl rfl
      rw [if_neg h6]
      exact Or.inr ⟨cu, t, rfl, rfl, h3', rfl⟩

/-- A float value that passed the `<= 0` rejection is positive whenever it
is not NaN (finite values by trichotomy, `+inf` outright); NaN is the one
value that passes the guard without being positive. -/
theorem pyZeroLt_of_pyLeZero_false {t : PyFloat} (h : pyLeZero t = false)
    (hn : t ≠ PyFloat.nan) : pyZeroLt t = true := by
  cases t with
  | num q =>
    have hq : ¬ q ≤ 0 := of_decide_eq_false (show decide (q ≤ 0) = false from h)
    show decide (0 < q) = true
    exact decide_eq_true (not_le.mp hq)
  | nan => exact absurd rfl hn
  | inf => rfl
  | ninf => exact absurd h (by simp [pyLeZero])

theorem renderProgress_ok {ps : List Project} (h : ∀ p ∈ ps, p.total_target ≠ 0) :
    renderProgress ps = .ok (ps.map (fun p => p.current_amount / p.total_target * 100)) := by
  induction ps with
  | nil => rfl
  | cons p rest ih =>
    have hp : p.total_target ≠ 0 := h p (List.mem_cons_self p rest)
    rw [show renderProgress (p :: rest) =
        (match progressOf p with
          | .ok v => (renderProgress rest).map (fun l => v :: l)
          | .error e => .error e) from rfl]
    rw [show progressOf p = .ok (p.current_amount / p.total_target * 100) from by
      simp [progressOf, hp]]
    rw [ih (fun x hx => h x (List.mem_cons_of_mem p hx))]
    rfl

theorem renderProgress_error {ps : List Project} {p0 : Project} (hmem : p0 ∈ ps)
    (h0 : p0.total_target = 0) : renderProgress ps = .error () := by
  induction ps with
  | nil => cases hmem
  | cons p rest ih =>
    rw [show renderProgress (p :: rest) =
        (match progressOf p with
          | .ok v => (renderProgress rest).map (fun l => v :: l)
          | .error e => .error e) from rfl]
    rcases List.mem_cons.mp hmem with rfl | hmem'
    · rw [show progressOf p0 = .error () from by simp [progressOf, h0]]
    · cases hp : progressOf p with
      | error e =>
        cases e
        rfl
      | ok v =>
        rw [ih hmem']
        rfl

/-- C9 counterexample to the original claim: entering `nan` as the target
passes the `total_target <= 0` guard — `nan <= 0` is `False` in Python —
so `create_new_project` succeeds and stores a project whose total target
is NaN, which is not greater than zero: "projects created through it
always have total_target > 0" fails at this input. -/
theorem claim_C9_counterexample :
    createNewProject (2025, 1, 1) 0 (sl "2025-01-01T00:00:00")
        ⟨[(sl "a@x.co",
           { first_name := sl "A", last_name := sl "B", email := sl "a@x.co",
             password_hash := sl "h", mobile := sl "01012345678",
             is_active := true, created_at := sl "c" })], [], some (sl "a@x.co")⟩
        ⟨sl "T", sl "D", sl "nan", sl "2030-01-01", sl "2030-02-01"⟩ =
      (true,
        ⟨[(sl "a@x.co",
           { first_name := sl "A", last_name := sl "B", email := sl "a@x.co",
             password_hash := sl "h", mobile := sl "01012345678",
             is_active := true, created_at := sl "c" })],
         [{ title := sl "T", details := sl "D", total_target := PyFloat.nan,
            start_date := sl "2030-01-01", end_date := sl "2030-02-01",
            owner_email := sl "a@x.co", created_at := sl "2025-01-01T00:00:00",
            current_amount := 0 }], some (sl "a@x.co")⟩) ∧
    pyZeroLt PyFloat.nan = false := by decide

/-- C9 (amended): the progress each project view renders is
`current_amount / total_target * 100`; with every target nonzero the whole
rendering loop completes without reaching the division-by-zero error; a
zero-target project (reachable only via a loaded file) makes the rendering
hit the error branch.  `create_new_project` appends only a project that
passed the `total_target <= 0` rejection with a zero current amount, so
the created target is positive whenever it is an actual number — the one
exception is the `nan` input, which passes the guard (NaN compares false
with 0) and yields a NaN target; every failure path leaves the state
unchanged. -/
theorem claim_C9_progress (ps : List Project) (p0 : Project) (nowD : ℕ × ℕ × ℕ)
    (nowT : ℕ) (nowStr : Str) (st : AppStateX) (inp : CreateInput) :
    ((∀ p ∈ ps, p.total_target ≠ 0) →
      renderProgress ps = .ok (ps.map (fun p => p.current_amount / p.total_target * 100))) ∧
    (p0 ∈ ps → p0.total_target = 0 → renderProgress ps = .error ()) ∧
    ((createNewProject nowD nowT nowStr st inp).1 = true →
      ∃ newP, (createNewProject nowD nowT nowStr st inp).2.projects_data =
        st.projects_data ++ [newP] ∧ pyLeZero newP.total_target = false ∧
        (newP.total_target ≠ PyFloat.nan → pyZeroLt newP.total_target = true) ∧
        newP.current_amount = 0) ∧
    ((createNewProject nowD nowT nowStr st inp).1 = false →
      (createNewProject nowD nowT nowStr st inp).2 = st) := by
  refine ⟨fun h => renderProgress_ok h, fun hm h0 => renderProgress_error hm h0, ?_, ?_⟩
  · rcases createNewProject_cases nowD nowT nowStr st inp with heq | ⟨cu, t, hcu, ht, hle, heq⟩
    · rw [heq]
      exact fun hc => Bool.noConfusion hc
    · rw [heq]
      exact fun _ => ⟨createProjectData (stripStr inp.title) (stripStr inp.details) t
        (stripStr inp.start_date) (stripStr inp.end_date) cu.email nowStr, rfl, hle,
        fun hn => pyZeroLt_of_pyLeZero_false hle hn, rfl⟩
  · rcases createNewProject_cases nowD nowT nowStr st inp with heq | ⟨cu, t, hcu, ht, hle, heq⟩
    · rw [heq]
      exact fun _ => rfl
    · rw [heq]
      exact fun hc => Bool.noConfusion hc

/-- C9 witness: a single-project registry with target 100 renders its
progress as 0, and a zero-target project hits the error branch. -/
theorem claim_C9_progress_witness :
    renderProgress
        [{ title := sl "PA", details := sl "da", total_target := 100,
           start_date := sl "2025-06-01", end_date := sl "2025-07-01",
           owner_email := sl "a@x.co", created_at := sl "t1", current_amount := 0 }] =
      .ok (([{ title := sl "PA", details := sl "da", total_target := 100,
               start_date := sl "2025-06-01", end_date := sl "2025-07-01",
               owner_email := sl "a@x.co", created_at := sl "t1",
               current_amount := 0 }] : List Project).map
        (fun p => p.current_amount / p.total_target * 100)) ∧
    renderProgress
        [{ title := sl "PZ", details := sl "dz", total_target := 0,
           start_date := sl "2025-06-01", end_date := sl "2025-07-01",
           owner_email := sl "a@x.co", created_at := sl "t1", current_amount := 0 }] =
      .error () :=
  ⟨(claim_C9_progress
      [{ title := sl "PA", details := sl "da", total_target := 100,
         start_date := sl "2025-06-01", end_date := sl "2025-07-01",
         owner_email := sl "a@x.co", created_at := sl "t1", current_amount := 0 }]
      { title := sl "PA", details := sl "da", total_target := 100,
        start_date := sl "2025-06-01", end_date := sl "2025-07-01",
        owner_email := sl "a@x.co", created_at := sl "t1", current_amount := 0 }
      (2025, 1, 1) 0 [] ⟨[], [], none⟩ ⟨[], [], [], [], []⟩).1 (by decide),
   (claim_C9_progress
      [{ title := sl "PZ", details := sl "dz", total_target := 0,
         start_date := sl "2025-06-01", end_date := sl "2025-07-01",
         owner_email := sl "a@x.co", created_at := sl "t1", current_amount := 0 }]
      { title := sl "PZ", details := sl "dz", total_target := 0,
        start_date := sl "2025-06-01", end_date := sl "2025-07-01",
        owner_email := sl "a@x.co", created_at := sl "t1", current_amount := 0 }
      (2025, 1, 1) 0 [] ⟨[], [], none⟩ ⟨[], [], [], [], []⟩).2.1
    (by decide) (by decide)⟩

theorem searchLoop_ok (dd : ℕ × ℕ × ℕ) (ps : List Project)
    (hp : ∀ p ∈ ps, (parseDate p.start_date).isSome ∧ (parseDate p.end_date).isSome) :
    ∃ l, searchLoop dd ps = .ok l ∧
      ∀ p, p ∈ l ↔ p ∈ ps ∧ ∃ sd ed, parseDate p.start_date = some sd ∧
        parseDate p.end_date = some ed ∧ dateLe sd dd = true ∧ dateLe dd ed = true := by
  induction ps with
  | nil => exact ⟨[], rfl, by simp⟩
  | cons p rest ih =>
    obtain ⟨hs, he⟩ := hp p (List.mem_cons_self p rest)
    obtain ⟨sd, hsd⟩ := Option.isSome_iff_exists.mp hs
    obtain ⟨ed, hed⟩ := Option.isSome_iff_exists.mp he
    obtain ⟨l, hl, hiff⟩ := ih fun x hx => hp x (List.mem_cons_of_mem p hx)
    refine ⟨if dateLe sd dd && dateLe dd ed then p :: l else l, ?_, ?_⟩
    · rw [show searchLoop dd (p :: rest) =
          (match parseDate p.start_date, parseDate p.end_date with
            | some sd, some ed =>
              (searchLoop dd rest).map
                (fun l => if dateLe sd dd && dateLe dd ed then p :: l else l)
            | _, _ => .error ()) from rfl]
      rw [hsd, hed, hl]
      rfl
    · intro x
      by_cases hcond : (dateLe sd dd && dateLe dd ed) = true
      · rw [if_pos hcond]
        rw [Bool.and_eq_true] at hcond
        constructor
        · intro hx
          rcases List.mem_cons.mp hx with rfl | hx'
          · exact ⟨List.mem_cons_self x rest, sd, ed, hsd, hed, hcond.1, hcond.2⟩
          · obtain ⟨hmem, hrest⟩ := (hiff x).mp hx'
            exact ⟨List.mem_cons_of_mem p hmem, hrest⟩
        · rintro ⟨hmem, hD⟩
          rcases List.mem_cons.mp hmem with rfl | hmem'
          · exact List.mem_cons_self x l
          · exact List.mem_cons_of_mem p ((hiff x).mpr ⟨hmem', hD⟩)
      · rw [if_neg hcond]
        constructor
        · intro hx
          obtain ⟨hmem, hD⟩ := (hiff x).mp hx
          exact ⟨List.mem_cons_of_mem p hmem, hD⟩
        · rintro ⟨hmem, hD⟩
          rcases List.mem_cons.mp hmem with rfl | hmem'
          · obtain ⟨sd', ed', hsd', hed', h1, h2⟩ := hD
            rw [hsd] at hsd'
            rw [hed] at hed'
            obtain rfl : sd = sd' := by injection hsd'
            obtain rfl : ed = ed' := by injection hed'
            exact absurd (by rw [h1, h2]; rfl) hcond
          · exact (hiff x).mpr ⟨hmem', hD⟩

/-- C4: when every stored project has parseable dates and the query date
parses, `search_projects_by_date` returns exactly the projects — of every
owner — whose inclusive `[start_date, end_date]` interval contains the
query date, and excludes all others. -/
theorem claim_C4_search_by_date (st : AppState) (dInput : Str) (dd : ℕ × ℕ × ℕ)
    (hd : parseDate (stripStr dInput) = some dd)
    (hp : ∀ p ∈ st.projects_data,
      (parseDate p.start_date).isSome ∧ (parseDate p.end_date).isSome) :
    ∃ l, searchProjectsByDate st dInput = some (.ok l) ∧
      ∀ p, p ∈ l ↔ p ∈ st.projects_data ∧ ∃ sd ed,
        parseDate p.start_date = some sd ∧ parseDate p.end_date = some ed ∧
        dateLe sd dd = true ∧ dateLe dd ed = true := by
  obtain ⟨l, hl, hiff⟩ := searchLoop_ok dd st.projects_data hp
  refine ⟨l, ?_, hiff⟩
  unfold searchProjectsByDate
  rw [hd]
  show some (searchLoop dd st.projects_data) = some (Except.ok l)
  rw [hl]

/-- C4 witness: with one project whose interval starts exactly on the
query date and one that ends before it, the search settles membership by
the inclusive boundary comparison. -/
theorem claim_C4_search_witness :
    ∃ l, searchProjectsByDate
        ⟨[], [{ title := sl "PA", details := sl "da", total_target := 100,
                start_date := sl "2025-06-15", end_date := sl "2025-07-01",
                owner_email := sl "a@x.co", created_at := sl "t1",
                current_amount := 0 },
              { title := sl "PB", details := sl "db", total_target := 200,
                start_date := sl "2025-05-01", end_date := sl "2025-06-01",
                owner_email := sl "b@x.co", created_at := sl "t2",
                current_amount := 0 }], none⟩ (sl "2025-06-15") = some (.ok l) ∧
      ∀ p, p ∈ l ↔
        p ∈ [{ title := sl "PA", details := sl "da", total_target := 100,
               start_date := sl "2025-06-15", end_date := sl "2025-07-01",
               owner_email := sl "a@x.co", created_at := sl "t1",
               current_amount := 0 },
             { title := sl "PB", details := sl "db", total_target := 200,
               start_date := sl "2025-05-01", end_date := sl "2025-06-01",
               owner_email := sl "b@x.co", created_at := sl "t2",
               current_amount := 0 }] ∧ ∃ sd ed,
          parseDate p.start_date = some sd ∧ parseDate p.end_date = some ed ∧
          dateLe sd (2025, 6, 15) = true ∧ dateLe (2025, 6, 15) ed = true :=
  claim_C4_search_by_date
    ⟨[], [{ title := sl "PA", details := sl "da", total_target := 100,
            start_date := sl "2025-06-15", end_date := sl "2025-07-01",
            owner_email := sl "a@x.co", created_at := sl "t1",
            current_amount := 0 },
          { title := sl "PB", details := sl "db", total_target := 200,
            start_date := sl "2025-05-01", end_date := sl "2025-06-01",
            owner_email := sl "b@x.co", created_at := sl "t2",
            current_amount := 0 }], none⟩ (sl "2025-06-15") (2025, 6, 15)
    (by decide) (by decide)

end Crowdfunding
